import Mathlib

/-!
Verification development for the quantum-visualizer repository.

The simulation core lives in two places in the repository: the pure math
module (complex arithmetic, gate matrices, state evolution, eigenphase
extraction, joint probabilities) and the branch-enumeration engine inside
the main application component (ordered gate selection per frame, the
per-wire column state cache, kickback synthesis, control-combination
enumeration, branch merging, sorting and capping).

Modelling conventions:
- JavaScript floating point numbers are modelled by exact real numbers.
- JavaScript objects {re, im} become the structure C below; 2x2 matrices
  [[a,b],[c,d]] become the structure Mat; 2-amplitude states become QState.
- Nullable values become Option; string-keyed tables become functions
  from String with an Option result.
- Array.prototype.sort with a comparator is stable and sorts by the
  comparator; it is modelled by List.insertionSort with the matching
  total preorder, which is stable in the same way.
- Fields that are consumed only by the renderer (colors, labels,
  animation durations, the isCompound / isDerivedKickback markers and the
  targetIndex back-reference of control cells) carry no simulation
  meaning and are omitted.
-/

noncomputable section

open Real

namespace QViz

/-- Complex value as stored by the source: a record with re and im fields. -/
structure C where
  re : ℝ
  im : ℝ

/-- Source constructor complex(re, im = 0). -/
def complex (re : ℝ) (im : ℝ := 0) : C := ⟨re, im⟩

def cAdd (a b : C) : C := ⟨a.re + b.re, a.im + b.im⟩

def cSub (a b : C) : C := ⟨a.re - b.re, a.im - b.im⟩

def cMul (a b : C) : C := ⟨a.re * b.re - a.im * b.im, a.re * b.im + a.im * b.re⟩

def cConj (a : C) : C := ⟨a.re, -a.im⟩

def cAbs (a : C) : ℝ := Real.sqrt (a.re * a.re + a.im * a.im)

/-- Source cPhase is Math.atan2(im, re); over the reals this is the complex
argument, with range (-pi, pi] and value 0 at the origin. -/
def cPhase (a : C) : ℝ := Complex.arg ⟨a.re, a.im⟩

def cFromPolar (r theta : ℝ) : C := ⟨r * Real.cos theta, r * Real.sin theta⟩

def cScale (a : C) (s : ℝ) : C := ⟨a.re * s, a.im * s⟩

def SQRT2_INV : ℝ := 1 / Real.sqrt 2

/-- Qubit state: ordered pair of complex amplitudes [s0, s1]. -/
structure QState where
  s0 : C
  s1 : C

/-- Source normalize: divide by the euclidean norm, defending the
zero-norm case with the computational-basis zero state. -/
def normalize (state : QState) : QState :=
  let norm := Real.sqrt (cAbs state.s0 ^ 2 + cAbs state.s1 ^ 2)
  if norm = 0 then ⟨⟨1, 0⟩, ⟨0, 0⟩⟩
  else ⟨⟨state.s0.re / norm, state.s0.im / norm⟩, ⟨state.s1.re / norm, state.s1.im / norm⟩⟩

def STATE_ZERO : QState := ⟨⟨1, 0⟩, ⟨0, 0⟩⟩

def STATE_ONE : QState := ⟨⟨0, 0⟩, ⟨1, 0⟩⟩

def STATE_PLUS : QState := ⟨⟨SQRT2_INV, 0⟩, ⟨SQRT2_INV, 0⟩⟩

def getInitialQubitState (mode : String) : QState :=
  if mode = "one" then STATE_ONE
  else if mode = "plus" then STATE_PLUS
  else STATE_ZERO

/-- Gate matrix [[a, b], [c, d]] in row-major order. -/
structure Mat where
  a : C
  b : C
  c : C
  d : C

/-- Source createU3Matrix(theta, phi, lambda). -/
def createU3Matrix (theta phi lambda : ℝ) : Mat :=
  ⟨complex (Real.cos (theta / 2)),
   cScale (cFromPolar 1 (-lambda)) (-(Real.sin (theta / 2))),
   cScale (cFromPolar 1 phi) (Real.sin (theta / 2)),
   cScale (cFromPolar 1 (phi + lambda)) (Real.cos (theta / 2))⟩

/-- Gate decomposition triple. -/
structure Decomp where
  theta : ℝ
  phi : ℝ
  lambda : ℝ

/-- Catalog entry of the GATES table; rendering-only fields are omitted. -/
structure GateDef where
  name : String
  isBarrier : Bool
  defaultMatrix : Mat
  defaultDecomposition : Decomp

def IMat : Mat := ⟨⟨1, 0⟩, ⟨0, 0⟩, ⟨0, 0⟩, ⟨1, 0⟩⟩

def XMat : Mat := ⟨⟨0, 0⟩, ⟨1, 0⟩, ⟨1, 0⟩, ⟨0, 0⟩⟩

def YMat : Mat := ⟨⟨0, 0⟩, ⟨0, -1⟩, ⟨0, 1⟩, ⟨0, 0⟩⟩

def ZMat : Mat := ⟨⟨1, 0⟩, ⟨0, 0⟩, ⟨0, 0⟩, ⟨-1, 0⟩⟩

def HMat : Mat := ⟨⟨SQRT2_INV, 0⟩, ⟨SQRT2_INV, 0⟩, ⟨SQRT2_INV, 0⟩, ⟨-SQRT2_INV, 0⟩⟩

def SMat : Mat := ⟨⟨1, 0⟩, ⟨0, 0⟩, ⟨0, 0⟩, ⟨0, 1⟩⟩

def TMat : Mat := ⟨⟨1, 0⟩, ⟨0, 0⟩, ⟨0, 0⟩, cFromPolar 1 (Real.pi / 4)⟩

/-- The string-keyed GATES catalog. -/
def GATES (s : String) : Option GateDef :=
  if s = "I" then some ⟨"I", false, IMat, ⟨0, 0, 0⟩⟩
  else if s = "X" then some ⟨"X", false, XMat, ⟨Real.pi, 0, Real.pi⟩⟩
  else if s = "Y" then some ⟨"Y", false, YMat, ⟨Real.pi, Real.pi / 2, Real.pi / 2⟩⟩
  else if s = "Z" then some ⟨"Z", false, ZMat, ⟨0, 0, Real.pi⟩⟩
  else if s = "H" then some ⟨"H", false, HMat, ⟨Real.pi / 2, 0, Real.pi⟩⟩
  else if s = "S" then some ⟨"S", false, SMat, ⟨0, 0, Real.pi / 2⟩⟩
  else if s = "T" then some ⟨"T", false, TMat, ⟨0, 0, Real.pi / 4⟩⟩
  else if s = "U" then some ⟨"U", false, IMat, ⟨0, 0, 0⟩⟩
  else if s = "BARRIER" then some ⟨"BARRIER", true, IMat, ⟨0, 0, 0⟩⟩
  else none

/-- Source applyMatrix: a null matrix is returned unchanged, otherwise the
matrix-vector product followed by renormalization. -/
def applyMatrix (state : QState) (matrix : Option Mat) : QState :=
  match matrix with
  | none => state
  | some m =>
      normalize ⟨cAdd (cMul m.a state.s0) (cMul m.b state.s1),
                 cAdd (cMul m.c state.s0) (cMul m.d state.s1)⟩

/-- Circuit gate object; CONTROL marker cells have gate = "CONTROL" and a
null matrix. -/
structure GateInst where
  gate : String
  matrix : Option Mat
  decomposition : Option Decomp
  controlIndex : Option ℕ

/-- Source createGateInstance(gateName, decomposition = null). -/
def createGateInstance (gateName : String) (decomposition : Option Decomp := none) :
    Option GateInst :=
  match GATES gateName with
  | none => none
  | some gateRef =>
      let decomp := decomposition.getD gateRef.defaultDecomposition
      let matrix :=
        if gateName = "U" ∨ decomposition.isSome then
          createU3Matrix decomp.theta decomp.phi decomp.lambda
        else gateRef.defaultMatrix
      some ⟨gateName, some matrix, some decomp, none⟩

/-- Source applyGate: barriers are no-ops, everything else delegates to
applyMatrix. -/
def applyGate (state : QState) (g : GateInst) : QState :=
  if g.gate = "BARRIER" then state else applyMatrix state g.matrix

/-- Measurement probabilities of one qubit. -/
structure Probs where
  prob0 : ℝ
  prob1 : ℝ

def getProbabilities (state : QState) : Probs :=
  ⟨cAbs state.s0 ^ 2, cAbs state.s1 ^ 2⟩

lemma ceil_sub_one_lt {x : ℝ} (hx : 0 < x) : ⌈x - 1⌉₊ < ⌈x⌉₊ := by
  have h1 : 1 ≤ ⌈x⌉₊ := Nat.one_le_iff_ne_zero.mpr (by
    intro h0
    have := Nat.le_ceil x
    rw [h0] at this
    exact absurd (lt_of_lt_of_le hx this) (by norm_num))
  have h2 : ⌈x - 1⌉₊ ≤ ⌈x⌉₊ - 1 := by
    apply Nat.ceil_le.mpr
    have := Nat.le_ceil x
    push_cast [h1]
    linarith
  omega

/-- Source normalizeAngle: repeatedly shift by 2*pi into (-pi, pi]. -/
def normalizeAngle (angle : ℝ) : ℝ :=
  if h : angle > Real.pi then normalizeAngle (angle - 2 * Real.pi)
  else if h2 : angle < -Real.pi then normalizeAngle (angle + 2 * Real.pi)
  else angle
termination_by ⌈(|angle| - Real.pi) / (2 * Real.pi)⌉₊
decreasing_by
  · have hpi := Real.pi_pos
    have habs : |angle| = angle := abs_of_pos (lt_trans hpi h)
    have hq : 0 < (angle - Real.pi) / (2 * Real.pi) := div_pos (by linarith) (by positivity)
    have key : (|angle - 2 * Real.pi| - Real.pi) / (2 * Real.pi) ≤
        (angle - Real.pi) / (2 * Real.pi) - 1 ∨
        (|angle - 2 * Real.pi| - Real.pi) / (2 * Real.pi) ≤ 0 := by
      rcases le_or_lt (angle - 2 * Real.pi) 0 with hc | hc
      · right
        have : |angle - 2 * Real.pi| = -(angle - 2 * Real.pi) := abs_of_nonpos hc
        rw [this]
        have : -(angle - 2 * Real.pi) - Real.pi ≤ 0 := by linarith
        apply div_nonpos_of_nonpos_of_nonneg this (by positivity)
      · left
        have : |angle - 2 * Real.pi| = angle - 2 * Real.pi := abs_of_pos hc
        rw [this, div_sub_one (by positivity)]
        apply div_le_div_of_nonneg_right ?_ (by positivity)
        · ring_nf
          linarith
    rcases key with hk | hk
    · calc ⌈(|angle - 2 * Real.pi| - Real.pi) / (2 * Real.pi)⌉₊
          ≤ ⌈(angle - Real.pi) / (2 * Real.pi) - 1⌉₊ := Nat.ceil_le_ceil hk
        _ < ⌈(angle - Real.pi) / (2 * Real.pi)⌉₊ := ceil_sub_one_lt hq
        _ = ⌈(|angle| - Real.pi) / (2 * Real.pi)⌉₊ := by rw [habs]
    · calc ⌈(|angle - 2 * Real.pi| - Real.pi) / (2 * Real.pi)⌉₊
          = 0 := by
            rw [Nat.ceil_eq_zero]
            exact hk
        _ < ⌈(|angle| - Real.pi) / (2 * Real.pi)⌉₊ := by
            rw [habs]
            exact Nat.lt_of_lt_of_le Nat.zero_lt_one
              (Nat.one_le_ceil_iff.mpr (by positivity))
  · have hpi := Real.pi_pos
    have habs : |angle| = -angle := abs_of_neg (by linarith)
    have hq : 0 < (-angle - Real.pi) / (2 * Real.pi) := by
      apply div_pos (by linarith) (by positivity)
    have key : (|angle + 2 * Real.pi| - Real.pi) / (2 * Real.pi) ≤
        (-angle - Real.pi) / (2 * Real.pi) - 1 ∨
        (|angle + 2 * Real.pi| - Real.pi) / (2 * Real.pi) ≤ 0 := by
      rcases le_or_lt 0 (angle + 2 * Real.pi) with hc | hc
      · right
        have : |angle + 2 * Real.pi| = angle + 2 * Real.pi := abs_of_nonneg hc
        rw [this]
        have : angle + 2 * Real.pi - Real.pi ≤ 0 := by linarith
        apply div_nonpos_of_nonpos_of_nonneg this (by positivity)
      · left
        have : |angle + 2 * Real.pi| = -(angle + 2 * Real.pi) := abs_of_neg hc
        rw [this, div_sub_one (by positivity)]
        apply div_le_div_of_nonneg_right ?_ (by positivity)
        · ring_nf
          linarith
    rcases key with hk | hk
    · calc ⌈(|angle + 2 * Real.pi| - Real.pi) / (2 * Real.pi)⌉₊
          ≤ ⌈(-angle - Real.pi) / (2 * Real.pi) - 1⌉₊ := Nat.ceil_le_ceil hk
        _ < ⌈(-angle - Real.pi) / (2 * Real.pi)⌉₊ := ceil_sub_one_lt hq
        _ = ⌈(|angle| - Real.pi) / (2 * Real.pi)⌉₊ := by rw [habs]
    · calc ⌈(|angle + 2 * Real.pi| - Real.pi) / (2 * Real.pi)⌉₊
          = 0 := by
            rw [Nat.ceil_eq_zero]
            exact hk
        _ < ⌈(|angle| - Real.pi) / (2 * Real.pi)⌉₊ := by
            rw [habs]
            exact Nat.lt_of_lt_of_le Nat.zero_lt_one
              (Nat.one_le_ceil_iff.mpr (by positivity))

/-- Source complexDiv with its small-denominator guard. -/
def complexDiv (a b : C) : C :=
  let den := b.re * b.re + b.im * b.im
  if den < 1e-12 then ⟨0, 0⟩
  else ⟨(a.re * b.re + a.im * b.im) / den, (a.im * b.re - a.re * b.im) / den⟩

/-- Index of the first amplitude whose magnitude exceeds the tolerance;
this is the state.findIndex call of the source unrolled over the two
amplitudes. -/
def kickRefIndex (state : QState) (tolerance : ℝ) : Option ℕ :=
  if cAbs state.s0 > tolerance then some 0
  else if cAbs state.s1 > tolerance then some 1
  else none

/-- Amplitude at a basis index of a 2-amplitude state. -/
def stateAmp (state : QState) (i : ℕ) : C :=
  if i = 0 then state.s0 else state.s1

/-- Source getKickbackPhaseForControlledGate; the per-index verification
loop is unrolled over the two basis indices. -/
def getKickbackPhaseForControlledGate (targetGate : GateInst)
    (targetStateBefore : Option QState) (tolerance : ℝ := 0.01) : Option ℝ :=
  if targetGate.gate = "BARRIER" ∨ targetGate.gate = "CONTROL" ∨ targetGate.matrix.isNone then
    none
  else
    let state := targetStateBefore.getD STATE_ZERO
    let evolved := applyMatrix state targetGate.matrix
    match kickRefIndex state tolerance with
    | none => none
    | some referenceIdx =>
        let rawPhase := complexDiv (stateAmp evolved referenceIdx) (stateAmp state referenceIdx)
        let rawMag := cAbs rawPhase
        if rawMag ≤ tolerance then none
        else
          let unitPhase := cScale rawPhase (1 / rawMag)
          if cAbs (cSub evolved.s0 (cMul unitPhase state.s0)) > tolerance * 2 then none
          else if cAbs (cSub evolved.s1 (cMul unitPhase state.s1)) > tolerance * 2 then none
          else
            let phase := normalizeAngle (cPhase unitPhase)
            some (if |phase| > tolerance then phase else 0)

/-- Entry of the joint probability table. -/
structure ProbEntry where
  state : String
  probability : ℝ

/-- Inner loop of getMultiQubitProbabilities: the basis label and the
probability product for joint outcome i. -/
def jointEntry (qubitStates : List QState) (numQubits i : ℕ) : ProbEntry :=
  let r := (List.range numQubits).foldl
    (fun (acc : ℝ × String) q =>
      let bit := (i >>> (numQubits - 1 - q)) &&& 1
      let qubitProbs := getProbabilities (qubitStates.getD q STATE_ZERO)
      (acc.1 * (if bit = 0 then qubitProbs.prob0 else qubitProbs.prob1),
       acc.2 ++ toString bit))
    (1, "")
  ⟨r.2, r.1⟩

/-- Source getMultiQubitProbabilities. -/
def getMultiQubitProbabilities (qubitStates : List QState) (includeZero : Bool := true) :
    List ProbEntry :=
  let numQubits := qubitStates.length
  let numStates := 2 ^ numQubits
  let results := (List.range numStates).filterMap fun i =>
    let e := jointEntry qubitStates numQubits i
    if includeZero || e.probability > 0.001 then some e else none
  List.insertionSort (fun a b => b.probability ≤ a.probability) results

/-- Source extractRotationFromMatrix (inverse ZYZ extraction). -/
def extractRotationFromMatrix (matrix : Option Mat) : Decomp :=
  match matrix with
  | none => ⟨0, 0, 0⟩
  | some m =>
      let aMag := cAbs m.a
      let cMag := cAbs m.c
      if aMag < 0.0001 then ⟨Real.pi, cPhase m.c, -(cPhase m.b)⟩
      else if cMag < 0.0001 then
        let phiPlusLambda := cPhase m.d - cPhase m.a
        ⟨0, phiPlusLambda / 2, phiPlusLambda / 2⟩
      else ⟨2 * Real.arccos (min 1 aMag), cPhase m.c, -(cPhase m.b)⟩

/-- Bloch sphere coordinates. -/
structure Bloch where
  x : ℝ
  y : ℝ
  z : ℝ
  theta : ℝ
  phi : ℝ

/-- Source stateToBlochCoords. -/
def stateToBlochCoords (state : QState) : Bloch :=
  let prob0 := cAbs state.s0 ^ 2
  let theta := 2 * Real.arccos (Real.sqrt (max 0 (min 1 prob0)))
  let phi := cPhase state.s1 - cPhase state.s0
  ⟨Real.sin theta * Real.cos phi, Real.sin theta * Real.sin phi, Real.cos theta, theta, phi⟩

/-- Kronecker product of independent single-wire states, as in the
repository test suite: fold expanding each amplitude with the two
amplitudes of the next wire. -/
def tensorProduct (states : List QState) : List C :=
  states.foldl (fun result state =>
    result.flatMap fun a => [cMul a state.s0, cMul a state.s1]) [⟨1, 0⟩]

/-!
Branch-enumeration engine of the application component. A circuit is a
list of wires; a wire is a sparse, slot-indexed list of optional cells.
-/

/-- A gate cell paired with the slot it occupies, as produced by the
spread { ...gate, slot } of the source. -/
structure SlotGate extends GateInst where
  slot : ℕ

/-- Row cells paired with their slot index, nulls dropped: this fuses the
map over (gate, slot) with the null filter of the source; the output is
in ascending slot order by construction. -/
def rowEntriesFrom : ℕ → List (Option GateInst) → List SlotGate
  | _, [] => []
  | n, none :: rest => rowEntriesFrom (n + 1) rest
  | n, some g :: rest => ⟨g, n⟩ :: rowEntriesFrom (n + 1) rest

abbrev Circuits := List (List (Option GateInst))

/-- Source getOrderedGates(qubitIndex, frame): the cells of the wire that
fall inside the circuit prefix selected by the frame, in slot order. -/
def getOrderedGates (circuits : Circuits) (barriers : List ℕ) (qubitIndex frame : ℕ) :
    List SlotGate :=
  let row := circuits.getD qubitIndex []
  let barrierCount := barriers.length
  let sortedBarriers := List.insertionSort (fun a b => a ≤ b) barriers
  let entries := List.insertionSort (fun a b => a.slot ≤ b.slot) (rowEntriesFrom 0 row)
  if frame = 0 then []
  else if frame > barrierCount then entries
  else
    match sortedBarriers.get? (frame - 1) with
    | none => entries
    | some barrierSlot => entries.filter fun e => e.slot < barrierSlot

/-- Column state cache of the source (buildColumnStateCache): the state of
a wire immediately before a slot, obtained by unconditionally applying, in
slot order, every real gate of the frame prefix at an earlier slot. The
source materialises this as a dictionary for slots up to maxSlot + 1 and
falls back to the initial state on missing keys; every lookup it performs
uses the slot of an existing gate, which is always inside that range, so
the total recursion below agrees with it on all performed lookups. -/
def cachedStateAt (circuits : Circuits) (barriers : List ℕ) (mode : String)
    (frame qi : ℕ) : ℕ → QState
  | 0 => getInitialQubitState mode
  | s + 1 =>
      let prev := cachedStateAt circuits barriers mode frame qi s
      match (getOrderedGates circuits barriers qi frame).find? (fun g => g.slot = s) with
      | some g =>
          if g.gate = "BARRIER" ∨ g.gate = "CONTROL" then prev else applyGate prev g.toGateInst
      | none => prev

/-- Source getKickbackGatesForControl(controlQubit): synthetic phase gates
derived from outgoing controlled gates whose target is, at that point, an
eigenstate of the gate with a non-negligible eigenphase. -/
def getKickbackGatesForControl (circuits : Circuits) (barriers : List ℕ) (mode : String)
    (frame controlQubit : ℕ) : List SlotGate :=
  (List.range circuits.length).flatMap fun targetQubit =>
    (getOrderedGates circuits barriers targetQubit frame).filterMap fun gate =>
      if gate.gate = "CONTROL" then none
      else if gate.controlIndex ≠ some controlQubit then none
      else
        let targetStateBefore := cachedStateAt circuits barriers mode frame targetQubit gate.slot
        match getKickbackPhaseForControlledGate gate.toGateInst (some targetStateBefore) with
        | none => none
        | some phase =>
            if |phase| ≤ 0.01 then none
            else some ⟨⟨"U", some (createU3Matrix 0 0 phase), some ⟨0, 0, phase⟩, none⟩, gate.slot⟩

/-- Effective gate list of a wire: its own cells plus the synthesized
kickback gates, re-sorted by slot (stable, so own cells precede kickback
gates at equal slots). -/
def effectiveGates (circuits : Circuits) (barriers : List ℕ) (mode : String)
    (frame qi : ℕ) : List SlotGate :=
  List.insertionSort (fun a b => a.slot ≤ b.slot)
    (getOrderedGates circuits barriers qi frame ++
      getKickbackGatesForControl circuits barriers mode frame qi)

/-- Rotation records for visualization, one per real gate with a
non-negligible decomposition. -/
def buildRotations (gateList : List SlotGate) : List Decomp :=
  gateList.filterMap fun gate =>
    if gate.gate = "BARRIER" ∨ gate.gate = "CONTROL" then none
    else
      match gate.decomposition with
      | none => none
      | some d =>
          if |d.theta| > 0.01 ∨ |d.phi| > 0.01 ∨ |d.lambda| > 0.01 then some d else none

/-- Fold a gate list over a state, skipping barrier and control cells. -/
def applyGates (gateList : List SlotGate) (state : QState) : QState :=
  gateList.foldl
    (fun st gate =>
      if gate.gate = "BARRIER" ∨ gate.gate = "CONTROL" then st
      else applyGate st gate.toGateInst)
    state

/-- One weighted possible outcome of a wire. -/
structure Branch where
  state : QState
  coords : Bloch
  probability : ℝ
  rotations : List Decomp

/-- Controlled gate instances of an effective list (CONTROL placeholder
cells excluded). -/
def controlledGatesOf (gates : List SlotGate) : List SlotGate :=
  gates.filter fun g => g.controlIndex.isSome && decide (g.gate ≠ "CONTROL")

/-- Insertion-ordered set of distinct values, as built by a JS Set. -/
def dedupFirst : List ℕ → List ℕ
  | [] => []
  | a :: t => a :: dedupFirst (t.filter fun x => decide (x ≠ a))
termination_by l => l.length
decreasing_by
  simp only [List.length_cons]
  exact Nat.lt_succ_of_le (List.length_filter_le _ _)

/-- Distinct controlling wires of an effective gate list, in order of
first appearance. -/
def uniqueControlsOf (gates : List SlotGate) : List ℕ :=
  dedupFirst ((controlledGatesOf gates).filterMap fun g => g.controlIndex)

/-- Probability that a controlling wire reads one, taken from the column
state cache at the slot of the first gate it controls. The none branch is
unreachable: every element of uniqueControlsOf is the controlIndex of some
controlled gate. -/
def controlProbsOf (circuits : Circuits) (barriers : List ℕ) (mode : String)
    (frame : ℕ) (gates : List SlotGate) : List ℝ :=
  (uniqueControlsOf gates).map fun ctrlIdx =>
    match (controlledGatesOf gates).find? (fun g => g.controlIndex = some ctrlIdx) with
    | some ctrlGate =>
        (getProbabilities (cachedStateAt circuits barriers mode frame ctrlIdx ctrlGate.slot)).prob1
    | none => 0

/-- Dictionary controlActive of the source: a controlling wire is asserted
in a combination when its bit (at its position in the distinct-control
list) is set. -/
def activeFor (uniqueControls : List ℕ) (combo c : ℕ) : Bool :=
  match uniqueControls.findIdx? (fun u => u = c) with
  | some i => ((combo >>> i) &&& 1) = 1
  | none => false

/-- Probability of one control combination: product over the distinct
controls of the asserted or negated measurement probability. -/
def assignProb (controlProbs : List ℝ) (combo : ℕ) : ℝ :=
  (List.range controlProbs.length).foldl
    (fun acc i =>
      acc * (if ((combo >>> i) &&& 1) = 1 then controlProbs.getD i 0
             else 1 - controlProbs.getD i 0))
    1

/-- Body of the enumeration loop: the branch built for one combination,
or none when the combination falls below the 0.01 probability threshold. -/
def mkRawBranch (gates : List SlotGate) (uniqueControls : List ℕ) (controlProbs : List ℝ)
    (mode : String) (combo : ℕ) : Option Branch :=
  let probability := assignProb controlProbs combo
  if probability < 0.01 then none
  else
    let activeGates := gates.filter fun g =>
      if g.gate = "CONTROL" then false
      else
        match g.controlIndex with
        | none => true
        | some c => activeFor uniqueControls combo c
    let state := applyGates activeGates (getInitialQubitState mode)
    some ⟨state, stateToBlochCoords state, probability, buildRotations activeGates⟩

/-- Enumeration loop: combinations in increasing integer order, stopping
as soon as 10 branches have been accepted; fuel counts the combinations
still to visit. -/
def enumRawAux (mk : ℕ → Option Branch) : ℕ → ℕ → List Branch → List Branch
  | 0, _, acc => acc
  | fuel + 1, combo, acc =>
      if acc.length < 10 then
        enumRawAux mk fuel (combo + 1)
          (match mk combo with
           | some b => acc ++ [b]
           | none => acc)
      else acc

/-- Raw branch list before merging: the enumeration loop started at
combination 0. -/
def rawBranchesOf (numCombinations : ℕ) (mk : ℕ → Option Branch) : List Branch :=
  enumRawAux mk numCombinations 0 []

/-- Bloch positions equal within tolerance 0.01 on each axis. -/
def coordsEqual (c1 c2 : Bloch) : Bool :=
  if |c1.x - c2.x| < 0.01 ∧ |c1.y - c2.y| < 0.01 ∧ |c1.z - c2.z| < 0.01 then true else false

/-- Source getTotalPhases: per-axis angle totals of a rotation history,
each normalized into (-pi, pi]. -/
def getTotalPhases (rotations : List Decomp) : Decomp :=
  let totals := rotations.foldl
    (fun (acc : Decomp) r => ⟨acc.theta + r.theta, acc.phi + r.phi, acc.lambda + r.lambda⟩)
    ⟨0, 0, 0⟩
  ⟨normalizeAngle totals.theta, normalizeAngle totals.phi, normalizeAngle totals.lambda⟩

/-- Accumulated phase totals equal within tolerance 0.01 per axis. -/
def phasesEqual (rots1 rots2 : List Decomp) : Bool :=
  let p1 := getTotalPhases rots1
  let p2 := getTotalPhases rots2
  if |p1.theta - p2.theta| < 0.01 ∧ |p1.lambda - p2.lambda| < 0.01 ∧
      |p1.phi - p2.phi| < 0.01 then true else false

/-- Merge one branch into the accumulated list: add its probability to the
first branch with matching Bloch position and phase totals, or append. -/
def addBranch : List Branch → Branch → List Branch
  | [], b => [b]
  | m :: rest, b =>
      if coordsEqual m.coords b.coords && phasesEqual m.rotations b.rotations then
        { m with probability := m.probability + b.probability } :: rest
      else m :: addBranch rest b

/-- Merged branch list of the source. -/
def mergedOf (raw : List Branch) : List Branch :=
  raw.foldl addBranch []

/-- Descending stable sort by probability, as the source comparator
(a, b) => b.probability - a.probability. -/
def sortBranches (l : List Branch) : List Branch :=
  List.insertionSort (fun a b => b.probability ≤ a.probability) l

/-- The single deterministic branch of an uncontrolled wire. -/
def singleBranch (gates : List SlotGate) (mode : String) : Branch :=
  let state := applyGates gates (getInitialQubitState mode)
  ⟨state, stateToBlochCoords state, 1, buildRotations gates⟩

/-- Fallback branch emitted when enumeration produced no branch at all. -/
def fallbackBranch (mode : String) : Branch :=
  ⟨getInitialQubitState mode, stateToBlochCoords (getInitialQubitState mode), 1, []⟩

/-- Controlled-path output: enumerate, merge, sort descending, cap at 10,
fall back to the initial state when empty. -/
def controlledBranches (circuits : Circuits) (barriers : List ℕ) (mode : String)
    (frame qi : ℕ) : List Branch :=
  let gates := effectiveGates circuits barriers mode frame qi
  let uniqueControls := uniqueControlsOf gates
  let controlProbs := controlProbsOf circuits barriers mode frame gates
  let raw := rawBranchesOf (2 ^ uniqueControls.length)
    (mkRawBranch gates uniqueControls controlProbs mode)
  let capped := (sortBranches (mergedOf raw)).take 10
  if capped.isEmpty then [fallbackBranch mode] else capped

/-- Branch list of one wire at one frame. -/
def wireBranches (circuits : Circuits) (barriers : List ℕ) (mode : String)
    (frame qi : ℕ) : List Branch :=
  let gates := effectiveGates circuits barriers mode frame qi
  let hasControl :=
    (gates.find? fun g => g.controlIndex.isSome && decide (g.gate ≠ "CONTROL")).isSome
  if hasControl then controlledBranches circuits barriers mode frame qi
  else [singleBranch gates mode]

/-- Frame actually simulated: the animation frame, with the sentinel -1
(or any negative value) meaning the full circuit. -/
def resolvedFrame (barriers : List ℕ) (animationFrame : ℤ) : ℕ :=
  if animationFrame < 0 then barriers.length + 1 else animationFrame.toNat

/-- Source qubitBranches: per-wire branch sets for the resolved frame. -/
def qubitBranches (circuits : Circuits) (barriers : List ℕ) (mode : String)
    (animationFrame : ℤ) : List (List Branch) :=
  (List.range circuits.length).map fun qi =>
    wireBranches circuits barriers mode (resolvedFrame barriers animationFrame) qi

/-- Representative state of one wire: the branch of maximal probability,
the earliest on ties (JS reduce with a strict comparison). -/
def representativeState (bl : List Branch) : QState :=
  match bl with
  | [] => STATE_ZERO
  | h :: t => (t.foldl (fun a c => if c.probability > a.probability then c else a) h).state

/-- Source qubitStates: the representative state of every wire. -/
def qubitStatesOf (branches : List (List Branch)) : List QState :=
  branches.map representativeState

/-!
Derived notions used only to state properties.
-/

/-- Squared euclidean norm of a state. -/
def stateNormSq (s : QState) : ℝ := cAbs s.s0 ^ 2 + cAbs s.s1 ^ 2

/-- Raw matrix-vector product, before the renormalization performed by
applyMatrix. -/
def matVec (m : Mat) (s : QState) : QState :=
  ⟨cAdd (cMul m.a s.s0) (cMul m.b s.s1), cAdd (cMul m.c s.s0) (cMul m.d s.s1)⟩

/-- Conjugate transpose of a 2x2 matrix. -/
def conjTranspose (m : Mat) : Mat := ⟨cConj m.a, cConj m.c, cConj m.b, cConj m.d⟩

/-- Product of two 2x2 matrices. -/
def matMul (m n : Mat) : Mat :=
  ⟨cAdd (cMul m.a n.a) (cMul m.b n.c), cAdd (cMul m.a n.b) (cMul m.b n.d),
   cAdd (cMul m.c n.a) (cMul m.d n.c), cAdd (cMul m.c n.b) (cMul m.d n.d)⟩

/-!
Basic lemmas about the numeric kernel.
-/

attribute [ext] C Mat QState Decomp

lemma cAbs_sq (a : C) : cAbs a ^ 2 = a.re * a.re + a.im * a.im := by
  unfold cAbs
  rw [Real.sq_sqrt (by nlinarith [mul_self_nonneg a.re, mul_self_nonneg a.im])]

lemma cAbs_nonneg (a : C) : 0 ≤ cAbs a := Real.sqrt_nonneg _

lemma applyMatrix_some (s : QState) (m : Mat) :
    applyMatrix s (some m) = normalize (matVec m s) := rfl

lemma stateNormSq_normalize (s : QState) : stateNormSq (normalize s) = 1 := by
  unfold normalize stateNormSq
  set n := Real.sqrt (cAbs s.s0 ^ 2 + cAbs s.s1 ^ 2) with hn
  by_cases h : n = 0
  · simp only [h, if_pos rfl]
    simp [cAbs_sq]
  · simp only [if_neg h]
    have hS : cAbs s.s0 ^ 2 + cAbs s.s1 ^ 2 = n ^ 2 := by
      rw [hn, Real.sq_sqrt]
      positivity
    simp only [cAbs_sq] at hS ⊢
    field_simp
    linarith [hS]

/-- Measurement probabilities of any state sum to its squared norm; for a
normalized state they sum to 1. -/
lemma probs_sum (s : QState) :
    (getProbabilities s).prob0 + (getProbabilities s).prob1 = stateNormSq s := rfl

lemma prob1_eq (s : QState) : (getProbabilities s).prob1 = cAbs s.s1 ^ 2 := rfl

lemma prob0_eq (s : QState) : (getProbabilities s).prob0 = cAbs s.s0 ^ 2 := rfl

lemma prob1_nonneg (s : QState) : 0 ≤ (getProbabilities s).prob1 := by
  rw [prob1_eq]
  positivity

lemma prob0_nonneg (s : QState) : 0 ≤ (getProbabilities s).prob0 := by
  rw [prob0_eq]
  positivity

/-!
C6 : applyMatrix always returns a normalized state, and an exactly
zero-norm product is replaced by the computational-basis zero state.
-/

/-- C6: for every input state and every 2x2 complex matrix, the state
returned by applyMatrix has squared norm exactly 1 (the real-number
idealisation of within tolerance), and when the raw matrix-vector
product has exactly zero norm the result is the basis zero state [1, 0]
rather than a division by zero. -/
theorem C6_applyMatrix_normalized (s : QState) (m : Mat) :
    stateNormSq (applyMatrix s (some m)) = 1 ∧
      (Real.sqrt (cAbs (matVec m s).s0 ^ 2 + cAbs (matVec m s).s1 ^ 2) = 0 →
        applyMatrix s (some m) = ⟨⟨1, 0⟩, ⟨0, 0⟩⟩) := by
  constructor
  · rw [applyMatrix_some]
    exact stateNormSq_normalize _
  · intro h
    rw [applyMatrix_some]
    unfold normalize
    simp only [h]
    simp

/-- C6 witness: the zero matrix sends the zero basis state to the zero
vector, and the defended result is [1, 0], which is normalized. -/
theorem C6_witness :
    applyMatrix STATE_ZERO (some ⟨⟨0, 0⟩, ⟨0, 0⟩, ⟨0, 0⟩, ⟨0, 0⟩⟩) = ⟨⟨1, 0⟩, ⟨0, 0⟩⟩ ∧
      stateNormSq (applyMatrix STATE_ZERO (some ⟨⟨0, 0⟩, ⟨0, 0⟩, ⟨0, 0⟩, ⟨0, 0⟩⟩)) = 1 := by
  refine ⟨(C6_applyMatrix_normalized STATE_ZERO _).2 ?_, (C6_applyMatrix_normalized STATE_ZERO _).1⟩
  show Real.sqrt _ = 0
  norm_num [matVec, cMul, cAdd, cAbs, STATE_ZERO]

/-!
C8 : unitarity of the createU3Matrix family. The source builds the
upper-right entry from cFromPolar(1, -lambda), so the family is not
unitary for general angles; it is unitary exactly when sin(lambda) = 0 or
cos(theta/2) * sin(theta/2) = 0, which covers every catalog default
decomposition.
-/

/-- C8 counterexample: at theta = pi/2, phi = 0, lambda = pi/2 the product
of the built matrix with its conjugate transpose has upper-right entry 1,
at distance 1 (far beyond 1e-6) from the corresponding identity entry, so
the matrix is not unitary and the claim fails as universally stated. -/
theorem C8_counterexample :
    1e-6 < cAbs (cSub
      (matMul (createU3Matrix (Real.pi / 2) 0 (Real.pi / 2))
        (conjTranspose (createU3Matrix (Real.pi / 2) 0 (Real.pi / 2)))).b IMat.b) := by
  have h4 : Real.pi / 2 / 2 = Real.pi / 4 := by ring
  have hs2 : Real.sqrt 2 * Real.sqrt 2 = 2 := Real.mul_self_sqrt (by norm_num)
  have hb : (matMul (createU3Matrix (Real.pi / 2) 0 (Real.pi / 2))
      (conjTranspose (createU3Matrix (Real.pi / 2) 0 (Real.pi / 2)))).b = ⟨1, 0⟩ := by
    unfold matMul conjTranspose createU3Matrix
    simp only [h4]
    simp only [complex, cFromPolar, cScale, cConj, cMul, cAdd, cSub,
      Real.cos_pi_div_four, Real.sin_pi_div_four, Real.cos_pi_div_two, Real.sin_pi_div_two,
      Real.cos_neg, Real.sin_neg, zero_add, neg_neg]
    ext <;> simp <;> nlinarith [hs2]
  rw [hb]
  show 1e-6 < cAbs ⟨1 - 0, 0 - 0⟩
  unfold cAbs
  norm_num


/-- C8 amended: the matrix built by createU3Matrix is unitary whenever
sin(lambda) = 0 (lambda an integer multiple of pi) or
cos(theta / 2) * sin(theta / 2) = 0; this covers every catalog default
decomposition. For other angle triples unitarity fails, as the
counterexample shows. -/
theorem C8_u3_unitary_amended (theta phi lam : ℝ)
    (h : Real.sin lam = 0 ∨ Real.cos (theta / 2) * Real.sin (theta / 2) = 0) :
    matMul (createU3Matrix theta phi lam) (conjTranspose (createU3Matrix theta phi lam)) =
      IMat := by
  have pyt := Real.sin_sq_add_cos_sq (theta / 2)
  have pyl := Real.sin_sq_add_cos_sq lam
  have pyp := Real.sin_sq_add_cos_sq phi
  unfold matMul conjTranspose createU3Matrix IMat complex cFromPolar cScale cConj cMul cAdd
  simp only [Real.cos_add, Real.sin_add, Real.cos_neg, Real.sin_neg, neg_zero, mul_zero,
    zero_mul, mul_one, one_mul, sub_zero, add_zero, zero_add, neg_neg, mul_neg, neg_mul]
  simp only [Mat.mk.injEq, C.mk.injEq]
  rcases h with h1 | h2
  · have hcl : Real.cos lam ^ 2 = 1 := by nlinarith [pyl]
    refine ⟨⟨?_, ?_⟩, ⟨?_, ?_⟩, ⟨?_, ?_⟩, ⟨?_, ?_⟩⟩
    · linear_combination Real.sin (theta / 2) ^ 2 * pyl + pyt
    · ring
    · linear_combination (-(Real.cos (theta / 2) * Real.cos phi * Real.sin (theta / 2))) * hcl +
        (Real.cos (theta / 2) * Real.cos phi * Real.sin (theta / 2) * Real.sin lam +
          2 * Real.cos (theta / 2) * Real.sin (theta / 2) * Real.cos lam * Real.sin phi) * h1
    · linear_combination (Real.cos (theta / 2) * Real.sin phi * Real.sin (theta / 2)) * hcl +
        (2 * Real.cos (theta / 2) * Real.sin (theta / 2) * Real.cos lam * Real.cos phi -
          Real.cos (theta / 2) * Real.sin phi * Real.sin (theta / 2) * Real.sin lam) * h1
    · linear_combination (-(Real.cos (theta / 2) * Real.cos phi * Real.sin (theta / 2))) * hcl +
        (Real.cos (theta / 2) * Real.cos phi * Real.sin (theta / 2) * Real.sin lam +
          2 * Real.cos (theta / 2) * Real.sin (theta / 2) * Real.cos lam * Real.sin phi) * h1
    · linear_combination (-(Real.cos (theta / 2) * Real.sin phi * Real.sin (theta / 2))) * hcl +
        (Real.cos (theta / 2) * Real.sin phi * Real.sin (theta / 2) * Real.sin lam -
          2 * Real.cos (theta / 2) * Real.sin (theta / 2) * Real.cos phi * Real.cos lam) * h1
    · linear_combination (Real.sin (theta / 2) ^ 2) * pyp +
        (Real.cos (theta / 2) ^ 2 * (Real.cos lam ^ 2 + Real.sin lam ^ 2)) * pyp +
        (Real.cos (theta / 2) ^ 2) * pyl + pyt
    · ring
  · refine ⟨⟨?_, ?_⟩, ⟨?_, ?_⟩, ⟨?_, ?_⟩, ⟨?_, ?_⟩⟩
    · linear_combination Real.sin (theta / 2) ^ 2 * pyl + pyt
    · ring
    · linear_combination (Real.cos phi - Real.cos phi * Real.cos lam ^ 2 +
        Real.cos phi * Real.sin lam ^ 2 + 2 * Real.cos lam * Real.sin phi * Real.sin lam) * h2
    · linear_combination (-(Real.sin phi) + Real.sin phi * Real.cos lam ^ 2 -
        Real.sin phi * Real.sin lam ^ 2 + 2 * Real.cos lam * Real.cos phi * Real.sin lam) * h2
    · linear_combination (Real.cos phi - Real.cos phi * Real.cos lam ^ 2 +
        Real.cos phi * Real.sin lam ^ 2 + 2 * Real.cos lam * Real.sin phi * Real.sin lam) * h2
    · linear_combination (Real.sin phi - Real.sin phi * Real.cos lam ^ 2 +
        Real.sin phi * Real.sin lam ^ 2 - 2 * Real.cos phi * Real.cos lam * Real.sin lam) * h2
    · linear_combination (Real.sin (theta / 2) ^ 2) * pyp +
        (Real.cos (theta / 2) ^ 2 * (Real.cos lam ^ 2 + Real.sin lam ^ 2)) * pyp +
        (Real.cos (theta / 2) ^ 2) * pyl + pyt
    · ring

/-- C8 witness: the amended unitarity theorem applied at the default
decomposition of the X gate, whose lambda is pi. -/
theorem C8_witness :
    matMul (createU3Matrix Real.pi 0 Real.pi)
      (conjTranspose (createU3Matrix Real.pi 0 Real.pi)) = IMat :=
  C8_u3_unitary_amended Real.pi 0 Real.pi (Or.inl Real.sin_pi)


/-!
C10 : createGateInstance returns null exactly off the catalog keys, and
on catalog keys returns an instance with a present matrix and a null
controlIndex.
-/

/-- The catalog keys of the GATES table. -/
def catalogKeys : List String :=
  ["I", "X", "Y", "Z", "H", "S", "T", "U", "BARRIER"]

/-- C10: for every gate-name string that is not a catalog key,
createGateInstance returns null; for every catalog key it returns a gate
instance with a present (non-null) 2x2 matrix and a null controlIndex. -/
theorem C10_createGateInstance :
    (∀ s : String, s ∉ catalogKeys → createGateInstance s = none) ∧
      ∀ s ∈ catalogKeys, ∃ g : GateInst,
        createGateInstance s = some g ∧ g.matrix.isSome = true ∧ g.controlIndex = none := by
  constructor
  · intro s hs
    simp only [catalogKeys, List.mem_cons, List.not_mem_nil, or_false, not_or] at hs
    obtain ⟨h1, h2, h3, h4, h5, h6, h7, h8, h9⟩ := hs
    simp [createGateInstance, GATES, h1, h2, h3, h4, h5, h6, h7, h8, h9]
  · intro s hs
    fin_cases hs <;> simp [createGateInstance, GATES]

/-- C10 witness: the key Q is not in the catalog and is refused, while
the key X yields an instance with a present matrix and no control. -/
theorem C10_witness :
    createGateInstance "Q" = none ∧
      ∃ g : GateInst, createGateInstance "X" = some g ∧
        g.matrix.isSome = true ∧ g.controlIndex = none :=
  ⟨C10_createGateInstance.1 "Q" (by decide),
   C10_createGateInstance.2 "X" (by decide)⟩


/-!
Angle and argument range lemmas.
-/

lemma normalizeAngle_eq_self {a : ℝ} (h1 : -Real.pi ≤ a) (h2 : a ≤ Real.pi) :
    normalizeAngle a = a := by
  rw [normalizeAngle]
  rw [dif_neg (not_lt.mpr h2), dif_neg (not_lt.mpr h1)]

lemma cPhase_mem (a : C) : -Real.pi < cPhase a ∧ cPhase a ≤ Real.pi :=
  ⟨Complex.neg_pi_lt_arg _, Complex.arg_le_pi _⟩

lemma normalizeAngle_cPhase (a : C) : normalizeAngle (cPhase a) = cPhase a :=
  normalizeAngle_eq_self (le_of_lt (cPhase_mem a).1) (cPhase_mem a).2

lemma cPhase_of_nonneg_real {x : ℝ} (hx : 0 ≤ x) : cPhase ⟨x, 0⟩ = 0 := by
  unfold cPhase
  have : (⟨x, 0⟩ : ℂ) = (x : ℂ) := by
    simp [Complex.ext_iff]
  rw [this]
  exact Complex.arg_ofReal_of_nonneg hx

lemma cPhase_neg_one : cPhase ⟨-1, 0⟩ = Real.pi := by
  unfold cPhase
  have : (⟨-1, 0⟩ : ℂ) = (-1 : ℂ) := by
    simp [Complex.ext_iff]
  rw [this]
  exact Complex.arg_neg_one

lemma cPhase_I : cPhase ⟨0, 1⟩ = Real.pi / 2 := by
  unfold cPhase
  have : (⟨0, 1⟩ : ℂ) = Complex.I := by
    simp [Complex.ext_iff]
  rw [this]
  exact Complex.arg_I

/-!
C3 : the eigenstate check of the kickback detector.
-/

/-- Ratio of the evolved to the pre-gate amplitude at the reference
index, normalized to unit magnitude, as described by the specification. -/
def kickbackUnitPhase (s : QState) (m : Mat) (r : ℕ) : C :=
  let rawPhase := complexDiv (stateAmp (applyMatrix s (some m)) r) (stateAmp s r)
  cScale rawPhase (1 / cAbs rawPhase)

/-- C3: for a target gate with a matrix (neither barrier nor control
marker) and any pre-gate state, a non-null kickback result implies every
basis index passes the eigenstate check within 2 * tolerance, and the
returned phase lies in (-pi, pi] and is exactly 0 whenever its magnitude
is at most the tolerance; conversely, when the normalized ratio exists
and any basis index fails the check, the result is null. -/
theorem C3_kickback_eigenstate_check (g : GateInst) (m : Mat) (s : QState)
    (hb : g.gate ≠ "BARRIER") (hc : g.gate ≠ "CONTROL") (hm : g.matrix = some m) :
    (∀ p : ℝ, getKickbackPhaseForControlledGate g (some s) 0.01 = some p →
      (∃ r, kickRefIndex s 0.01 = some r ∧
        cAbs (cSub (applyMatrix s (some m)).s0 (cMul (kickbackUnitPhase s m r) s.s0)) ≤
          0.01 * 2 ∧
        cAbs (cSub (applyMatrix s (some m)).s1 (cMul (kickbackUnitPhase s m r) s.s1)) ≤
          0.01 * 2) ∧
      (-Real.pi < p ∧ p ≤ Real.pi) ∧ (|p| ≤ 0.01 → p = 0)) ∧
    (∀ r, kickRefIndex s 0.01 = some r →
      cAbs (complexDiv (stateAmp (applyMatrix s (some m)) r) (stateAmp s r)) > 0.01 →
      (cAbs (cSub (applyMatrix s (some m)).s0 (cMul (kickbackUnitPhase s m r) s.s0)) >
          0.01 * 2 ∨
        cAbs (cSub (applyMatrix s (some m)).s1 (cMul (kickbackUnitPhase s m r) s.s1)) >
          0.01 * 2) →
      getKickbackPhaseForControlledGate g (some s) 0.01 = none) := by
  have hcond : ¬(g.gate = "BARRIER" ∨ g.gate = "CONTROL" ∨ g.matrix.isNone = true) := by
    simp [hb, hc, hm]
  constructor
  · intro p hp
    unfold getKickbackPhaseForControlledGate at hp
    rw [if_neg hcond] at hp
    simp only [Option.getD_some, hm] at hp
    cases hr : kickRefIndex s 0.01 with
    | none =>
        simp only [hr] at hp
        exact absurd hp (by simp)
    | some r =>
        simp only [hr] at hp
        have hku : cScale (complexDiv (stateAmp (applyMatrix s (some m)) r) (stateAmp s r))
            (1 / cAbs (complexDiv (stateAmp (applyMatrix s (some m)) r) (stateAmp s r))) =
            kickbackUnitPhase s m r := rfl
        rw [hku] at hp
        by_cases hmag : cAbs (complexDiv (stateAmp (applyMatrix s (some m)) r)
            (stateAmp s r)) ≤ 0.01
        · rw [if_pos hmag] at hp
          exact absurd hp (by simp)
        · rw [if_neg hmag] at hp
          by_cases hd0 : cAbs (cSub (applyMatrix s (some m)).s0
              (cMul (kickbackUnitPhase s m r) s.s0)) > 0.01 * 2
          · rw [if_pos hd0] at hp
            exact absurd hp (by simp)
          · rw [if_neg hd0] at hp
            by_cases hd1 : cAbs (cSub (applyMatrix s (some m)).s1
                (cMul (kickbackUnitPhase s m r) s.s1)) > 0.01 * 2
            · rw [if_pos hd1] at hp
              exact absurd hp (by simp)
            · rw [if_neg hd1] at hp
              refine ⟨⟨r, rfl, le_of_not_lt hd0, le_of_not_lt hd1⟩, ?_⟩
              have hp2 := Option.some.inj hp
              have hrange : -Real.pi < normalizeAngle (cPhase (kickbackUnitPhase s m r)) ∧
                  normalizeAngle (cPhase (kickbackUnitPhase s m r)) ≤ Real.pi := by
                rw [normalizeAngle_cPhase]
                exact cPhase_mem _
              by_cases hsnap : |normalizeAngle (cPhase (kickbackUnitPhase s m r))| > 0.01
              · rw [if_pos hsnap] at hp2
                refine ⟨hp2 ▸ hrange, ?_⟩
                intro hple
                rw [← hp2] at hple
                exact absurd hple (not_le.mpr hsnap)
              · rw [if_neg hsnap] at hp2
                refine ⟨?_, fun _ => hp2.symm⟩
                rw [← hp2]
                exact ⟨by linarith [Real.pi_pos], le_of_lt Real.pi_pos⟩
  · intro r hr hmag hfail
    unfold getKickbackPhaseForControlledGate
    rw [if_neg hcond]
    simp only [Option.getD_some, hm, hr]
    have hku : cScale (complexDiv (stateAmp (applyMatrix s (some m)) r) (stateAmp s r))
        (1 / cAbs (complexDiv (stateAmp (applyMatrix s (some m)) r) (stateAmp s r))) =
        kickbackUnitPhase s m r := rfl
    rw [hku]
    rw [if_neg (not_le.mpr hmag)]
    rcases hfail with hf | hf
    · rw [if_pos hf]
    · by_cases hd0 : cAbs (cSub (applyMatrix s (some m)).s0
          (cMul (kickbackUnitPhase s m r) s.s0)) > 0.01 * 2
      · rw [if_pos hd0]
      · rw [if_neg hd0, if_pos hf]

/-!
Concrete gate instances and evaluation lemmas used by the scenario
theorems.
-/

/-- Hadamard instance as placed by the editor. -/
def hGate : GateInst := ⟨"H", some HMat, some ⟨Real.pi / 2, 0, Real.pi⟩, none⟩

/-- Pauli-X instance. -/
def xGate : GateInst := ⟨"X", some XMat, some ⟨Real.pi, 0, Real.pi⟩, none⟩

/-- Z instance controlled by wire 0. -/
def czGate : GateInst := ⟨"Z", some ZMat, some ⟨0, 0, Real.pi⟩, some 0⟩

/-- S instance controlled by wire 0. -/
def csGate : GateInst := ⟨"S", some SMat, some ⟨0, 0, Real.pi / 2⟩, some 0⟩

/-- CONTROL marker cell (the targetIndex back-reference is render-only
and omitted). -/
def controlCell : GateInst := ⟨"CONTROL", none, none, none⟩

lemma normalize_of_normSq_one {s : QState} (h : cAbs s.s0 ^ 2 + cAbs s.s1 ^ 2 = 1) :
    normalize s = s := by
  unfold normalize
  rw [h, Real.sqrt_one]
  norm_num

lemma sqrt2_inv_sq : SQRT2_INV * SQRT2_INV = 1 / 2 := by
  unfold SQRT2_INV
  rw [div_mul_div_comm, one_mul, Real.mul_self_sqrt (by norm_num)]

lemma sqrt2_inv_pos : 0 < SQRT2_INV := by
  unfold SQRT2_INV
  positivity

lemma applyMatrix_H_zero : applyMatrix STATE_ZERO (some HMat) = STATE_PLUS := by
  rw [applyMatrix_some]
  have hv : matVec HMat STATE_ZERO = STATE_PLUS := by
    unfold matVec HMat STATE_ZERO STATE_PLUS cAdd cMul
    ext <;> norm_num
  rw [hv]
  apply normalize_of_normSq_one
  unfold STATE_PLUS
  simp only [cAbs_sq]
  rw [sqrt2_inv_sq]
  norm_num

lemma applyMatrix_X_zero : applyMatrix STATE_ZERO (some XMat) = STATE_ONE := by
  rw [applyMatrix_some]
  have hv : matVec XMat STATE_ZERO = STATE_ONE := by
    unfold matVec XMat STATE_ZERO STATE_ONE cAdd cMul
    ext <;> norm_num
  rw [hv]
  apply normalize_of_normSq_one
  unfold STATE_ONE
  simp only [cAbs_sq]
  norm_num

lemma applyMatrix_Z_one : applyMatrix STATE_ONE (some ZMat) = ⟨⟨0, 0⟩, ⟨-1, 0⟩⟩ := by
  rw [applyMatrix_some]
  have hv : matVec ZMat STATE_ONE = ⟨⟨0, 0⟩, ⟨-1, 0⟩⟩ := by
    unfold matVec ZMat STATE_ONE cAdd cMul
    ext <;> norm_num
  rw [hv]
  apply normalize_of_normSq_one
  simp only [cAbs_sq]
  norm_num

lemma applyMatrix_S_one : applyMatrix STATE_ONE (some SMat) = ⟨⟨0, 0⟩, ⟨0, 1⟩⟩ := by
  rw [applyMatrix_some]
  have hv : matVec SMat STATE_ONE = ⟨⟨0, 0⟩, ⟨0, 1⟩⟩ := by
    unfold matVec SMat STATE_ONE cAdd cMul
    ext <;> norm_num
  rw [hv]
  apply normalize_of_normSq_one
  simp only [cAbs_sq]
  norm_num

lemma applyMatrix_Z_zero : applyMatrix STATE_ZERO (some ZMat) = STATE_ZERO := by
  rw [applyMatrix_some]
  have hv : matVec ZMat STATE_ZERO = STATE_ZERO := by
    unfold matVec ZMat STATE_ZERO cAdd cMul
    ext <;> norm_num
  rw [hv]
  apply normalize_of_normSq_one
  unfold STATE_ZERO
  simp only [cAbs_sq]
  norm_num

/-- Matrix of a pure phase gate built from angles (0, 0, lambda). -/
lemma u3_phase_mat (lam : ℝ) :
    createU3Matrix 0 0 lam = ⟨⟨1, 0⟩, ⟨0, 0⟩, ⟨0, 0⟩, ⟨Real.cos lam, Real.sin lam⟩⟩ := by
  unfold createU3Matrix complex cFromPolar cScale
  ext <;> norm_num

lemma kickRefIndex_one : kickRefIndex STATE_ONE 0.01 = some 1 := by
  unfold kickRefIndex STATE_ONE cAbs
  norm_num

lemma kickRefIndex_zero : kickRefIndex STATE_ZERO 0.01 = some 0 := by
  unfold kickRefIndex STATE_ZERO cAbs
  norm_num

lemma pi_gt_tol : (0.01 : ℝ) < |Real.pi| := by
  rw [abs_of_pos Real.pi_pos]
  linarith [Real.pi_gt_three]

/-- Kickback of a controlled Z on target state one: eigenphase pi. -/
lemma kick_cz_one : getKickbackPhaseForControlledGate czGate (some STATE_ONE) 0.01 =
    some Real.pi := by
  unfold getKickbackPhaseForControlledGate
  rw [if_neg (by simp [czGate])]
  simp only [Option.getD_some]
  have hm : czGate.matrix = some ZMat := rfl
  rw [hm, applyMatrix_Z_one, kickRefIndex_one]
  simp only [stateAmp]
  norm_num [complexDiv, STATE_ONE, cAbs, cScale, cMul, cSub]
  rw [cPhase_neg_one, normalizeAngle_eq_self (by linarith [Real.pi_pos]) (le_refl Real.pi)]
  rw [if_pos (show (1 / 100 : ℝ) < |Real.pi| by
    rw [abs_of_pos Real.pi_pos]
    linarith [Real.pi_gt_three])]

lemma normalizeAngle_of_gt {a : ℝ} (h1 : Real.pi < a) (h2 : a ≤ 3 * Real.pi) :
    normalizeAngle a = a - 2 * Real.pi := by
  rw [normalizeAngle, dif_pos h1]
  exact normalizeAngle_eq_self (by linarith) (by linarith)

lemma normalizeAngle_two_pi : normalizeAngle (2 * Real.pi) = 0 := by
  rw [normalizeAngle_of_gt (by linarith [Real.pi_pos]) (by linarith [Real.pi_pos])]
  ring

lemma normalizeAngle_pi : normalizeAngle Real.pi = Real.pi :=
  normalizeAngle_eq_self (by linarith [Real.pi_pos]) le_rfl

lemma normalizeAngle_zero : normalizeAngle 0 = 0 :=
  normalizeAngle_eq_self (by linarith [Real.pi_pos]) (by linarith [Real.pi_pos])

/-- Kickback of a controlled S on target state one: eigenphase pi / 2. -/
lemma kick_cs_one : getKickbackPhaseForControlledGate csGate (some STATE_ONE) 0.01 =
    some (Real.pi / 2) := by
  unfold getKickbackPhaseForControlledGate
  rw [if_neg (by simp [csGate])]
  simp only [Option.getD_some]
  have hm : csGate.matrix = some SMat := rfl
  rw [hm, applyMatrix_S_one, kickRefIndex_one]
  simp only [stateAmp]
  norm_num [complexDiv, STATE_ONE, cAbs, cScale, cMul, cSub]
  rw [cPhase_I, normalizeAngle_eq_self (by linarith [Real.pi_pos]) (by linarith [Real.pi_pos])]
  rw [if_pos (show (1 / 100 : ℝ) < |Real.pi / 2| by
    rw [abs_of_pos (by linarith [Real.pi_pos])]
    linarith [Real.pi_gt_three])]

/-- Kickback of a controlled Z on target state zero: phase snapped to 0
(eigenvalue 1), so no kickback gate is synthesized. -/
lemma kick_cz_zero : getKickbackPhaseForControlledGate czGate (some STATE_ZERO) 0.01 =
    some 0 := by
  unfold getKickbackPhaseForControlledGate
  rw [if_neg (by simp [czGate])]
  simp only [Option.getD_some]
  have hm : czGate.matrix = some ZMat := rfl
  rw [hm, applyMatrix_Z_zero, kickRefIndex_zero]
  simp only [stateAmp]
  norm_num [complexDiv, STATE_ZERO, cAbs, cScale, cMul, cSub]
  rw [cPhase_of_nonneg_real (by norm_num), normalizeAngle_zero]
  norm_num

/-- Applying a pure phase gate to the plus state multiplies the second
amplitude by the unit phase. -/
lemma applyMatrix_phase_plus (lam : ℝ) :
    applyMatrix STATE_PLUS (some (createU3Matrix 0 0 lam)) =
      ⟨⟨SQRT2_INV, 0⟩, ⟨SQRT2_INV * Real.cos lam, SQRT2_INV * Real.sin lam⟩⟩ := by
  rw [applyMatrix_some, u3_phase_mat]
  have hv : matVec ⟨⟨1, 0⟩, ⟨0, 0⟩, ⟨0, 0⟩, ⟨Real.cos lam, Real.sin lam⟩⟩ STATE_PLUS =
      ⟨⟨SQRT2_INV, 0⟩, ⟨SQRT2_INV * Real.cos lam, SQRT2_INV * Real.sin lam⟩⟩ := by
    unfold matVec STATE_PLUS cAdd cMul
    ext <;> ring
  rw [hv]
  apply normalize_of_normSq_one
  simp only [cAbs_sq]
  have : SQRT2_INV * Real.cos lam * (SQRT2_INV * Real.cos lam) +
      SQRT2_INV * Real.sin lam * (SQRT2_INV * Real.sin lam) =
      SQRT2_INV * SQRT2_INV * (Real.sin lam ^ 2 + Real.cos lam ^ 2) := by ring
  norm_num [this, sqrt2_inv_sq, Real.sin_sq_add_cos_sq]

/-- C3 witness: the theorem applied to a controlled Z gate with pre-gate
state one, whose kickback phase is pi. -/
theorem C3_witness :
    (∃ r, kickRefIndex STATE_ONE 0.01 = some r ∧
      cAbs (cSub (applyMatrix STATE_ONE (some ZMat)).s0
        (cMul (kickbackUnitPhase STATE_ONE ZMat r) STATE_ONE.s0)) ≤ 0.01 * 2 ∧
      cAbs (cSub (applyMatrix STATE_ONE (some ZMat)).s1
        (cMul (kickbackUnitPhase STATE_ONE ZMat r) STATE_ONE.s1)) ≤ 0.01 * 2) ∧
    (-Real.pi < Real.pi ∧ Real.pi ≤ Real.pi) ∧ (|Real.pi| ≤ 0.01 → Real.pi = 0) :=
  (C3_kickback_eigenstate_check czGate ZMat STATE_ONE (by simp [czGate]) (by simp [czGate])
    rfl).1 Real.pi kick_cz_one

/-!
C4 scenario circuits: control wire 0 prepared with a Hadamard, target
wire 1 prepared with X into state one (or left in state zero), then a
controlled Z or S on wire 1 at slot 1 with its control marker on wire 0.
-/

def circuitCZ : Circuits := [[some hGate, some controlCell], [some xGate, some czGate]]

def circuitCS : Circuits := [[some hGate, some controlCell], [some xGate, some csGate]]

def circuitCZzero : Circuits := [[some hGate, some controlCell], [none, some czGate]]

/-- Synthetic kickback gate with eigenphase pi at slot 1. -/
def kickPiGate : SlotGate :=
  ⟨⟨"U", some (createU3Matrix 0 0 Real.pi), some ⟨0, 0, Real.pi⟩, none⟩, 1⟩

/-- Synthetic kickback gate with eigenphase pi / 2 at slot 1. -/
def kickPiHalfGate : SlotGate :=
  ⟨⟨"U", some (createU3Matrix 0 0 (Real.pi / 2)), some ⟨0, 0, Real.pi / 2⟩, none⟩, 1⟩

lemma og_cz_w0 : getOrderedGates circuitCZ [] 0 1 = [⟨hGate, 0⟩, ⟨controlCell, 1⟩] := by
  norm_num [getOrderedGates, circuitCZ, rowEntriesFrom, List.insertionSort, List.orderedInsert]

lemma og_cz_w1 : getOrderedGates circuitCZ [] 1 1 = [⟨xGate, 0⟩, ⟨czGate, 1⟩] := by
  norm_num [getOrderedGates, circuitCZ, rowEntriesFrom, List.insertionSort, List.orderedInsert]

lemma cache_cz_w0 : cachedStateAt circuitCZ [] "zero" 1 0 1 = STATE_PLUS := by
  rw [show (1 : ℕ) = 0 + 1 from rfl, cachedStateAt]
  rw [og_cz_w0]
  simp +decide [List.find?, cachedStateAt, getInitialQubitState, applyGate, hGate,
    applyMatrix_H_zero]

lemma cache_cz_w1 : cachedStateAt circuitCZ [] "zero" 1 1 1 = STATE_ONE := by
  rw [show (1 : ℕ) = 0 + 1 from rfl, cachedStateAt]
  rw [og_cz_w1]
  simp +decide [List.find?, cachedStateAt, getInitialQubitState, applyGate, xGate,
    applyMatrix_X_zero]

lemma kb_cz_w0 : getKickbackGatesForControl circuitCZ [] "zero" 1 0 = [kickPiGate] := by
  unfold getKickbackGatesForControl
  have hnotle : ¬(|Real.pi| ≤ (0.01 : ℝ)) := not_le.mpr pi_gt_tol
  rw [show circuitCZ.length = 2 from rfl]
  rw [show List.range 2 = [0, 1] from rfl]
  simp only [List.flatMap_cons, List.flatMap_nil, List.append_nil]
  rw [og_cz_w0, og_cz_w1]
  simp only [List.filterMap_cons, List.filterMap_nil]
  simp +decide [hGate, xGate, controlCell, cache_cz_w1, kick_cz_one, hnotle, kickPiGate,
    show czGate.gate = "Z" from rfl, show czGate.controlIndex = some 0 from rfl]

attribute [ext] Bloch Branch

lemma enumRawAux_zero (mk : ℕ → Option Branch) (combo : ℕ) (acc : List Branch) :
    enumRawAux mk 0 combo acc = acc := rfl

lemma enumRawAux_succ (mk : ℕ → Option Branch) (fuel combo : ℕ) (acc : List Branch) :
    enumRawAux mk (fuel + 1) combo acc =
      if acc.length < 10 then
        enumRawAux mk fuel (combo + 1)
          (match mk combo with
           | some b => acc ++ [b]
           | none => acc)
      else acc := rfl

lemma bloch_one : stateToBlochCoords STATE_ONE = ⟨0, 0, -1, Real.pi, 0⟩ := by
  have h0 : cAbs (⟨0, 0⟩ : C) ^ 2 = 0 := by
    rw [cAbs_sq]
    ring
  unfold stateToBlochCoords STATE_ONE
  simp only [h0]
  rw [show max 0 (min 1 (0 : ℝ)) = 0 by norm_num, Real.sqrt_zero, Real.arccos_zero]
  rw [cPhase_of_nonneg_real (zero_le_one), cPhase_of_nonneg_real (le_refl 0)]
  norm_num [Bloch.mk.injEq, show 2 * (Real.pi / 2) = Real.pi by ring, Real.sin_pi, Real.cos_pi]

lemma bloch_negone : stateToBlochCoords ⟨⟨0, 0⟩, ⟨-1, 0⟩⟩ = ⟨0, 0, -1, Real.pi, Real.pi⟩ := by
  have h0 : cAbs (⟨0, 0⟩ : C) ^ 2 = 0 := by
    rw [cAbs_sq]
    ring
  unfold stateToBlochCoords
  simp only [h0]
  rw [show max 0 (min 1 (0 : ℝ)) = 0 by norm_num, Real.sqrt_zero, Real.arccos_zero]
  rw [cPhase_neg_one, cPhase_of_nonneg_real (le_refl 0)]
  norm_num [Bloch.mk.injEq, show 2 * (Real.pi / 2) = Real.pi by ring, Real.sin_pi, Real.cos_pi]

/-- First raw branch of the controlled-Z target wire: control not
asserted, only the X applies. -/
def czB0 : Branch := ⟨STATE_ONE, ⟨0, 0, -1, Real.pi, 0⟩, 1 / 2, [⟨Real.pi, 0, Real.pi⟩]⟩

/-- Second raw branch: control asserted, X then Z apply. -/
def czB1 : Branch :=
  ⟨⟨⟨0, 0⟩, ⟨-1, 0⟩⟩, ⟨0, 0, -1, Real.pi, Real.pi⟩, 1 / 2,
   [⟨Real.pi, 0, Real.pi⟩, ⟨0, 0, Real.pi⟩]⟩

lemma uc_cz : uniqueControlsOf [⟨xGate, 0⟩, ⟨czGate, 1⟩] = [0] := by
  simp +decide [uniqueControlsOf, controlledGatesOf, dedupFirst, xGate,
    show czGate.controlIndex = some 0 from rfl, show czGate.gate = "Z" from rfl]

lemma prob1_plus : (getProbabilities STATE_PLUS).prob1 = 1 / 2 := by
  rw [prob1_eq]
  unfold STATE_PLUS
  rw [cAbs_sq]
  norm_num [sqrt2_inv_sq]

lemma cp_cz : controlProbsOf circuitCZ [] "zero" 1 [⟨xGate, 0⟩, ⟨czGate, 1⟩] = [1 / 2] := by
  unfold controlProbsOf
  rw [uc_cz]
  simp +decide [controlledGatesOf, List.find?, xGate,
    show czGate.controlIndex = some 0 from rfl, show czGate.gate = "Z" from rfl,
    cache_cz_w0, prob1_plus]

lemma assignProb_half_0 : assignProb [(1 : ℝ) / 2] 0 = 1 / 2 := by
  unfold assignProb
  rw [show List.range (List.length [(1 : ℝ) / 2]) = [0] from rfl]
  norm_num

lemma assignProb_half_1 : assignProb [(1 : ℝ) / 2] 1 = 1 / 2 := by
  unfold assignProb
  rw [show List.range (List.length [(1 : ℝ) / 2]) = [0] from rfl]
  norm_num

lemma mk_cz_0 : mkRawBranch [⟨xGate, 0⟩, ⟨czGate, 1⟩] [0] [1 / 2] "zero" 0 = some czB0 := by
  unfold mkRawBranch
  rw [assignProb_half_0]
  rw [if_neg (by norm_num)]
  simp +decide [activeFor, List.filter, xGate,
    show czGate.controlIndex = some 0 from rfl, show czGate.gate = "Z" from rfl,
    applyGates, getInitialQubitState, applyGate, applyMatrix_X_zero, buildRotations,
    pi_gt_tol, bloch_one, czB0]

lemma mk_cz_1 : mkRawBranch [⟨xGate, 0⟩, ⟨czGate, 1⟩] [0] [1 / 2] "zero" 1 = some czB1 := by
  unfold mkRawBranch
  rw [assignProb_half_1]
  rw [if_neg (by norm_num)]
  simp +decide [activeFor, List.filter, xGate,
    show czGate.controlIndex = some 0 from rfl, show czGate.gate = "Z" from rfl,
    show czGate.matrix = some ZMat from rfl,
    show czGate.decomposition = some ⟨0, 0, Real.pi⟩ from rfl,
    applyGates, getInitialQubitState, applyGate, applyMatrix_X_zero, applyMatrix_Z_one,
    buildRotations, pi_gt_tol, bloch_negone, czB1]

lemma raw_cz : rawBranchesOf 2 (mkRawBranch [⟨xGate, 0⟩, ⟨czGate, 1⟩] [0] [1 / 2] "zero") =
    [czB0, czB1] := by
  unfold rawBranchesOf
  rw [show (2 : ℕ) = 1 + 1 from rfl, enumRawAux_succ, if_pos (by norm_num), mk_cz_0]
  simp only []
  rw [show (1 : ℕ) = 0 + 1 from rfl, enumRawAux_succ, if_pos (by norm_num), mk_cz_1]
  simp only [enumRawAux_zero]
  simp

lemma totals_single_x : getTotalPhases [(⟨Real.pi, 0, Real.pi⟩ : Decomp)] =
    ⟨Real.pi, 0, Real.pi⟩ := by
  simp [getTotalPhases, normalizeAngle_pi, normalizeAngle_zero]

lemma normalizeAngle_pi_add_pi : normalizeAngle (Real.pi + Real.pi) = 0 := by
  rw [show Real.pi + Real.pi = 2 * Real.pi by ring, normalizeAngle_two_pi]

lemma totals_x_z : getTotalPhases [(⟨Real.pi, 0, Real.pi⟩ : Decomp), ⟨0, 0, Real.pi⟩] =
    ⟨Real.pi, 0, 0⟩ := by
  simp only [getTotalPhases, List.foldl]
  norm_num [normalizeAngle_pi, normalizeAngle_zero, normalizeAngle_pi_add_pi]

lemma phasesEqual_cz : phasesEqual [(⟨Real.pi, 0, Real.pi⟩ : Decomp)]
    [⟨Real.pi, 0, Real.pi⟩, ⟨0, 0, Real.pi⟩] = false := by
  unfold phasesEqual
  rw [totals_single_x, totals_x_z]
  show (if |Real.pi - Real.pi| < 0.01 ∧ |Real.pi - 0| < 0.01 ∧ |(0 : ℝ) - 0| < 0.01
    then true else false) = false
  rw [if_neg]
  intro hcon
  have h2 := hcon.2.1
  rw [sub_zero, abs_of_pos Real.pi_pos] at h2
  norm_num at h2
  linarith [Real.pi_gt_three]

lemma merged_cz : mergedOf [czB0, czB1] = [czB0, czB1] := by
  unfold mergedOf
  simp only [List.foldl, addBranch]
  rw [show czB0.rotations = [(⟨Real.pi, 0, Real.pi⟩ : Decomp)] from rfl,
    show czB1.rotations = [(⟨Real.pi, 0, Real.pi⟩ : Decomp), ⟨0, 0, Real.pi⟩] from rfl,
    phasesEqual_cz]
  simp [addBranch]

lemma sort_cz : sortBranches [czB0, czB1] = [czB0, czB1] := by
  unfold sortBranches
  simp [List.insertionSort, List.orderedInsert,
    show czB0.probability = 1 / 2 from rfl, show czB1.probability = 1 / 2 from rfl]

lemma kb_cz_w1 : getKickbackGatesForControl circuitCZ [] "zero" 1 1 = [] := by
  unfold getKickbackGatesForControl
  rw [show circuitCZ.length = 2 from rfl, show List.range 2 = [0, 1] from rfl]
  simp only [List.flatMap_cons, List.flatMap_nil, List.append_nil]
  rw [og_cz_w0, og_cz_w1]
  simp +decide [hGate, xGate, controlCell, show czGate.controlIndex = some 0 from rfl,
    show czGate.gate = "Z" from rfl]

lemma eff_cz_w0 : effectiveGates circuitCZ [] "zero" 1 0 =
    [⟨hGate, 0⟩, ⟨controlCell, 1⟩, kickPiGate] := by
  unfold effectiveGates
  rw [og_cz_w0, kb_cz_w0]
  simp +decide [List.insertionSort, List.orderedInsert, kickPiGate]

lemma eff_cz_w1 : effectiveGates circuitCZ [] "zero" 1 1 = [⟨xGate, 0⟩, ⟨czGate, 1⟩] := by
  unfold effectiveGates
  rw [og_cz_w1, kb_cz_w1]
  simp +decide [List.insertionSort, List.orderedInsert]

lemma wb_cz_w1 : wireBranches circuitCZ [] "zero" 1 1 = [czB0, czB1] := by
  unfold wireBranches
  simp only [eff_cz_w1]
  rw [if_pos (by
    simp +decide [List.find?, xGate, show czGate.controlIndex = some 0 from rfl,
      show czGate.gate = "Z" from rfl])]
  unfold controlledBranches
  simp only [eff_cz_w1, uc_cz, cp_cz]
  rw [show ((2 : ℕ) ^ List.length [(0 : ℕ)]) = 2 from rfl]
  rw [raw_cz, merged_cz, sort_cz]
  simp

/-- Minus state reached by the control wire after the synthesized pi
phase gate. -/
def minusState : QState := ⟨⟨SQRT2_INV, 0⟩, ⟨-SQRT2_INV, 0⟩⟩

/-- State of the control wire after the synthesized pi / 2 phase gate. -/
def siState : QState := ⟨⟨SQRT2_INV, 0⟩, ⟨0, SQRT2_INV⟩⟩

lemma wb_cz_w0 : wireBranches circuitCZ [] "zero" 1 0 =
    [singleBranch [⟨hGate, 0⟩, ⟨controlCell, 1⟩, kickPiGate] "zero"] := by
  unfold wireBranches
  simp only [eff_cz_w0]
  rw [if_neg (by simp +decide [List.find?, hGate, controlCell, kickPiGate])]

lemma rep_cz_w0 : representativeState (wireBranches circuitCZ [] "zero" 1 0) = minusState := by
  rw [wb_cz_w0]
  simp +decide [representativeState, singleBranch, applyGates, applyGate, hGate, controlCell,
    kickPiGate, getInitialQubitState, applyMatrix_H_zero, applyMatrix_phase_plus,
    Real.cos_pi, Real.sin_pi, minusState]

lemma rep_cz_w1 : representativeState [czB0, czB1] = STATE_ONE := by
  norm_num [representativeState, show czB1.probability = 1 / 2 from rfl,
    show czB0.probability = 1 / 2 from rfl, show czB0.state = STATE_ONE from rfl]

lemma states_cz : qubitStatesOf (qubitBranches circuitCZ [] "zero" (-1)) =
    [minusState, STATE_ONE] := by
  unfold qubitBranches qubitStatesOf resolvedFrame
  rw [if_pos (by norm_num)]
  rw [show circuitCZ.length = 2 from rfl, show List.range 2 = [0, 1] from rfl]
  simp only [List.map_cons, List.map_nil, List.length_nil]
  rw [rep_cz_w0, wb_cz_w1, rep_cz_w1]

lemma tensor_cz : tensorProduct [minusState, STATE_ONE] =
    [⟨0, 0⟩, ⟨SQRT2_INV, 0⟩, ⟨0, 0⟩, ⟨-SQRT2_INV, 0⟩] := by
  norm_num [tensorProduct, minusState, STATE_ONE, cMul, List.flatMap, C.mk.injEq]

/-!
Parallel evaluation for the controlled-S circuit.
-/

lemma og_cs_w0 : getOrderedGates circuitCS [] 0 1 = [⟨hGate, 0⟩, ⟨controlCell, 1⟩] := by
  norm_num [getOrderedGates, circuitCS, rowEntriesFrom, List.insertionSort, List.orderedInsert]

lemma og_cs_w1 : getOrderedGates circuitCS [] 1 1 = [⟨xGate, 0⟩, ⟨csGate, 1⟩] := by
  norm_num [getOrderedGates, circuitCS, rowEntriesFrom, List.insertionSort, List.orderedInsert]

lemma cache_cs_w0 : cachedStateAt circuitCS [] "zero" 1 0 1 = STATE_PLUS := by
  rw [show (1 : ℕ) = 0 + 1 from rfl, cachedStateAt]
  rw [og_cs_w0]
  simp +decide [List.find?, cachedStateAt, getInitialQubitState, applyGate, hGate,
    applyMatrix_H_zero]

lemma cache_cs_w1 : cachedStateAt circuitCS [] "zero" 1 1 1 = STATE_ONE := by
  rw [show (1 : ℕ) = 0 + 1 from rfl, cachedStateAt]
  rw [og_cs_w1]
  simp +decide [List.find?, cachedStateAt, getInitialQubitState, applyGate, xGate,
    applyMatrix_X_zero]

lemma pi_half_gt_tol : (0.01 : ℝ) < |Real.pi / 2| := by
  rw [abs_of_pos (by linarith [Real.pi_pos])]
  linarith [Real.pi_gt_three]

lemma kb_cs_w0 : getKickbackGatesForControl circuitCS [] "zero" 1 0 = [kickPiHalfGate] := by
  unfold getKickbackGatesForControl
  have hnotle : ¬(|Real.pi / 2| ≤ (0.01 : ℝ)) := not_le.mpr pi_half_gt_tol
  rw [show circuitCS.length = 2 from rfl]
  rw [show List.range 2 = [0, 1] from rfl]
  simp only [List.flatMap_cons, List.flatMap_nil, List.append_nil]
  rw [og_cs_w0, og_cs_w1]
  simp only [List.filterMap_cons, List.filterMap_nil]
  simp +decide [hGate, xGate, controlCell, cache_cs_w1, kick_cs_one, hnotle, kickPiHalfGate,
    show csGate.gate = "S" from rfl, show csGate.controlIndex = some 0 from rfl]

lemma kb_cs_w1 : getKickbackGatesForControl circuitCS [] "zero" 1 1 = [] := by
  unfold getKickbackGatesForControl
  rw [show circuitCS.length = 2 from rfl, show List.range 2 = [0, 1] from rfl]
  simp only [List.flatMap_cons, List.flatMap_nil, List.append_nil]
  rw [og_cs_w0, og_cs_w1]
  simp +decide [hGate, xGate, controlCell, show csGate.controlIndex = some 0 from rfl,
    show csGate.gate = "S" from rfl]

lemma eff_cs_w0 : effectiveGates circuitCS [] "zero" 1 0 =
    [⟨hGate, 0⟩, ⟨controlCell, 1⟩, kickPiHalfGate] := by
  unfold effectiveGates
  rw [og_cs_w0, kb_cs_w0]
  simp +decide [List.insertionSort, List.orderedInsert, kickPiHalfGate]

lemma eff_cs_w1 : effectiveGates circuitCS [] "zero" 1 1 = [⟨xGate, 0⟩, ⟨csGate, 1⟩] := by
  unfold effectiveGates
  rw [og_cs_w1, kb_cs_w1]
  simp +decide [List.insertionSort, List.orderedInsert]

lemma bloch_sone : stateToBlochCoords ⟨⟨0, 0⟩, ⟨0, 1⟩⟩ = ⟨0, 0, -1, Real.pi, Real.pi / 2⟩ := by
  have h0 : cAbs (⟨0, 0⟩ : C) ^ 2 = 0 := by
    rw [cAbs_sq]
    ring
  unfold stateToBlochCoords
  simp only [h0]
  rw [show max 0 (min 1 (0 : ℝ)) = 0 by norm_num, Real.sqrt_zero, Real.arccos_zero]
  rw [cPhase_I, cPhase_of_nonneg_real (le_refl 0)]
  norm_num [Bloch.mk.injEq, show 2 * (Real.pi / 2) = Real.pi by ring, Real.sin_pi, Real.cos_pi]

/-- Second raw branch of the controlled-S target wire. -/
def csB1 : Branch :=
  ⟨⟨⟨0, 0⟩, ⟨0, 1⟩⟩, ⟨0, 0, -1, Real.pi, Real.pi / 2⟩, 1 / 2,
   [⟨Real.pi, 0, Real.pi⟩, ⟨0, 0, Real.pi / 2⟩]⟩

lemma uc_cs : uniqueControlsOf [⟨xGate, 0⟩, ⟨csGate, 1⟩] = [0] := by
  simp +decide [uniqueControlsOf, controlledGatesOf, dedupFirst, xGate,
    show csGate.controlIndex = some 0 from rfl, show csGate.gate = "S" from rfl]

lemma cp_cs : controlProbsOf circuitCS [] "zero" 1 [⟨xGate, 0⟩, ⟨csGate, 1⟩] = [1 / 2] := by
  unfold controlProbsOf
  rw [uc_cs]
  simp +decide [controlledGatesOf, List.find?, xGate,
    show csGate.controlIndex = some 0 from rfl, show csGate.gate = "S" from rfl,
    cache_cs_w0, prob1_plus]

lemma mk_cs_0 : mkRawBranch [⟨xGate, 0⟩, ⟨csGate, 1⟩] [0] [1 / 2] "zero" 0 = some czB0 := by
  unfold mkRawBranch
  rw [assignProb_half_0]
  rw [if_neg (by norm_num)]
  simp +decide [activeFor, List.filter, xGate,
    show csGate.controlIndex = some 0 from rfl, show csGate.gate = "S" from rfl,
    applyGates, getInitialQubitState, applyGate, applyMatrix_X_zero, buildRotations,
    pi_gt_tol, bloch_one, czB0]

lemma mk_cs_1 : mkRawBranch [⟨xGate, 0⟩, ⟨csGate, 1⟩] [0] [1 / 2] "zero" 1 = some csB1 := by
  unfold mkRawBranch
  rw [assignProb_half_1]
  rw [if_neg (by norm_num)]
  simp +decide [activeFor, List.filter, xGate,
    show csGate.controlIndex = some 0 from rfl, show csGate.gate = "S" from rfl,
    show csGate.matrix = some SMat from rfl,
    show csGate.decomposition = some ⟨0, 0, Real.pi / 2⟩ from rfl,
    applyGates, getInitialQubitState, applyGate, applyMatrix_X_zero, applyMatrix_S_one,
    buildRotations, pi_gt_tol, pi_half_gt_tol, bloch_sone, csB1]

lemma raw_cs : rawBranchesOf 2 (mkRawBranch [⟨xGate, 0⟩, ⟨csGate, 1⟩] [0] [1 / 2] "zero") =
    [czB0, csB1] := by
  unfold rawBranchesOf
  rw [show (2 : ℕ) = 1 + 1 from rfl, enumRawAux_succ, if_pos (by norm_num), mk_cs_0]
  simp only []
  rw [show (1 : ℕ) = 0 + 1 from rfl, enumRawAux_succ, if_pos (by norm_num), mk_cs_1]
  simp only [enumRawAux_zero]
  simp

lemma normalizeAngle_pi_add_half : normalizeAngle (Real.pi + Real.pi / 2) = -(Real.pi / 2) := by
  rw [normalizeAngle_of_gt (by linarith [Real.pi_pos]) (by linarith [Real.pi_pos])]
  ring

lemma totals_x_s : getTotalPhases [(⟨Real.pi, 0, Real.pi⟩ : Decomp), ⟨0, 0, Real.pi / 2⟩] =
    ⟨Real.pi, 0, -(Real.pi / 2)⟩ := by
  simp only [getTotalPhases, List.foldl]
  norm_num [normalizeAngle_pi, normalizeAngle_zero, normalizeAngle_pi_add_half]

lemma phasesEqual_cs : phasesEqual [(⟨Real.pi, 0, Real.pi⟩ : Decomp)]
    [⟨Real.pi, 0, Real.pi⟩, ⟨0, 0, Real.pi / 2⟩] = false := by
  unfold phasesEqual
  rw [totals_single_x, totals_x_s]
  show (if |Real.pi - Real.pi| < 0.01 ∧ |Real.pi - -(Real.pi / 2)| < 0.01 ∧
      |(0 : ℝ) - 0| < 0.01 then true else false) = false
  rw [if_neg]
  intro hcon
  have h2 := hcon.2.1
  rw [sub_neg_eq_add, abs_of_pos (by linarith [Real.pi_pos])] at h2
  norm_num at h2
  linarith [Real.pi_gt_three]

lemma merged_cs : mergedOf [czB0, csB1] = [czB0, csB1] := by
  unfold mergedOf
  simp only [List.foldl, addBranch]
  rw [show czB0.rotations = [(⟨Real.pi, 0, Real.pi⟩ : Decomp)] from rfl,
    show csB1.rotations = [(⟨Real.pi, 0, Real.pi⟩ : Decomp), ⟨0, 0, Real.pi / 2⟩] from rfl,
    phasesEqual_cs]
  simp [addBranch]

lemma sort_cs : sortBranches [czB0, csB1] = [czB0, csB1] := by
  unfold sortBranches
  simp [List.insertionSort, List.orderedInsert,
    show czB0.probability = 1 / 2 from rfl, show csB1.probability = 1 / 2 from rfl]

lemma wb_cs_w1 : wireBranches circuitCS [] "zero" 1 1 = [czB0, csB1] := by
  unfold wireBranches
  simp only [eff_cs_w1]
  rw [if_pos (by
    simp +decide [List.find?, xGate, show csGate.controlIndex = some 0 from rfl,
      show csGate.gate = "S" from rfl])]
  unfold controlledBranches
  simp only [eff_cs_w1, uc_cs, cp_cs]
  rw [show ((2 : ℕ) ^ List.length [(0 : ℕ)]) = 2 from rfl]
  rw [raw_cs, merged_cs, sort_cs]
  simp

lemma wb_cs_w0 : wireBranches circuitCS [] "zero" 1 0 =
    [singleBranch [⟨hGate, 0⟩, ⟨controlCell, 1⟩, kickPiHalfGate] "zero"] := by
  unfold wireBranches
  simp only [eff_cs_w0]
  rw [if_neg (by simp +decide [List.find?, hGate, controlCell, kickPiHalfGate])]

lemma rep_cs_w0 : representativeState (wireBranches circuitCS [] "zero" 1 0) = siState := by
  rw [wb_cs_w0]
  simp +decide [representativeState, singleBranch, applyGates, applyGate, hGate, controlCell,
    kickPiHalfGate, getInitialQubitState, applyMatrix_H_zero, applyMatrix_phase_plus,
    Real.cos_pi_div_two, Real.sin_pi_div_two, siState]

lemma rep_cs_w1 : representativeState [czB0, csB1] = STATE_ONE := by
  norm_num [representativeState, show csB1.probability = 1 / 2 from rfl,
    show czB0.probability = 1 / 2 from rfl, show czB0.state = STATE_ONE from rfl]

lemma states_cs : qubitStatesOf (qubitBranches circuitCS [] "zero" (-1)) =
    [siState, STATE_ONE] := by
  unfold qubitBranches qubitStatesOf resolvedFrame
  rw [if_pos (by norm_num)]
  rw [show circuitCS.length = 2 from rfl, show List.range 2 = [0, 1] from rfl]
  simp only [List.map_cons, List.map_nil, List.length_nil]
  rw [rep_cs_w0, wb_cs_w1, rep_cs_w1]

lemma tensor_cs : tensorProduct [siState, STATE_ONE] =
    [⟨0, 0⟩, ⟨SQRT2_INV, 0⟩, ⟨0, 0⟩, ⟨0, SQRT2_INV⟩] := by
  norm_num [tensorProduct, siState, STATE_ONE, cMul, List.flatMap, C.mk.injEq]

/-!
Controlled-Z with the target left in state zero: no kickback.
-/

lemma og_cz0_w0 : getOrderedGates circuitCZzero [] 0 1 = [⟨hGate, 0⟩, ⟨controlCell, 1⟩] := by
  norm_num [getOrderedGates, circuitCZzero, rowEntriesFrom, List.insertionSort,
    List.orderedInsert]

lemma og_cz0_w1 : getOrderedGates circuitCZzero [] 1 1 = [⟨czGate, 1⟩] := by
  norm_num [getOrderedGates, circuitCZzero, rowEntriesFrom, List.insertionSort,
    List.orderedInsert]

lemma cache_cz0_w1 : cachedStateAt circuitCZzero [] "zero" 1 1 1 = STATE_ZERO := by
  rw [show (1 : ℕ) = 0 + 1 from rfl, cachedStateAt]
  rw [og_cz0_w1]
  simp +decide [List.find?, cachedStateAt, getInitialQubitState]

lemma kb_cz0_w0 : getKickbackGatesForControl circuitCZzero [] "zero" 1 0 = [] := by
  unfold getKickbackGatesForControl
  rw [show circuitCZzero.length = 2 from rfl, show List.range 2 = [0, 1] from rfl]
  simp only [List.flatMap_cons, List.flatMap_nil, List.append_nil]
  rw [og_cz0_w0, og_cz0_w1]
  simp only [List.filterMap_cons, List.filterMap_nil]
  simp +decide [hGate, controlCell, cache_cz0_w1, kick_cz_zero,
    show czGate.gate = "Z" from rfl, show czGate.controlIndex = some 0 from rfl]
  norm_num

lemma eff_cz0_w0 : effectiveGates circuitCZzero [] "zero" 1 0 =
    [⟨hGate, 0⟩, ⟨controlCell, 1⟩] := by
  unfold effectiveGates
  rw [og_cz0_w0, kb_cz0_w0]
  simp +decide [List.insertionSort, List.orderedInsert]

lemma wb_cz0_w0 : wireBranches circuitCZzero [] "zero" 1 0 =
    [singleBranch [⟨hGate, 0⟩, ⟨controlCell, 1⟩] "zero"] := by
  unfold wireBranches
  simp only [eff_cz0_w0]
  rw [if_neg (by simp +decide [List.find?, hGate, controlCell])]

lemma single_cz0_state : (singleBranch [⟨hGate, 0⟩, ⟨controlCell, 1⟩] "zero").state =
    STATE_PLUS := by
  simp +decide [singleBranch, applyGates, applyGate, hGate, controlCell,
    getInitialQubitState, applyMatrix_H_zero]

/-!
C4 : kickback scenarios.
-/

/-- C4: with the control wire prepared in plus and the target in one, a
controlled Z yields kickback eigenphase pi, synthesized as a lambda = pi
phase gate on the control wire, and the combined per-wire states equal
(ket 01 minus ket 11) / sqrt 2 exactly; a controlled S yields eigenphase
pi / 2 and (ket 01 plus i ket 11) / sqrt 2; with the target in zero the
controlled Z yields phase 0, no synthesized gate, and the control wire
marginal stays the plus state with probability 1. -/
theorem C4_kickback_scenarios :
    getKickbackPhaseForControlledGate czGate (some STATE_ONE) 0.01 = some Real.pi ∧
    getKickbackGatesForControl circuitCZ [] "zero" 1 0 = [kickPiGate] ∧
    kickPiGate.decomposition = some ⟨0, 0, Real.pi⟩ ∧
    tensorProduct (qubitStatesOf (qubitBranches circuitCZ [] "zero" (-1))) =
      [⟨0, 0⟩, ⟨SQRT2_INV, 0⟩, ⟨0, 0⟩, ⟨-SQRT2_INV, 0⟩] ∧
    getKickbackPhaseForControlledGate csGate (some STATE_ONE) 0.01 = some (Real.pi / 2) ∧
    tensorProduct (qubitStatesOf (qubitBranches circuitCS [] "zero" (-1))) =
      [⟨0, 0⟩, ⟨SQRT2_INV, 0⟩, ⟨0, 0⟩, ⟨0, SQRT2_INV⟩] ∧
    getKickbackPhaseForControlledGate czGate (some STATE_ZERO) 0.01 = some 0 ∧
    getKickbackGatesForControl circuitCZzero [] "zero" 1 0 = [] ∧
    wireBranches circuitCZzero [] "zero" 1 0 =
      [singleBranch [⟨hGate, 0⟩, ⟨controlCell, 1⟩] "zero"] ∧
    (singleBranch [⟨hGate, 0⟩, ⟨controlCell, 1⟩] "zero").state = STATE_PLUS ∧
    (singleBranch [⟨hGate, 0⟩, ⟨controlCell, 1⟩] "zero").probability = 1 := by
  refine ⟨kick_cz_one, kb_cz_w0, rfl, ?_, kick_cs_one, ?_, kick_cz_zero, kb_cz0_w0,
    wb_cz0_w0, single_cz0_state, rfl⟩
  · rw [states_cz, tensor_cz]
  · rw [states_cs, tensor_cs]

/-!
C7 : inverse ZYZ extraction round-trip.
-/

/-- Rebuild a matrix from the angles extracted from it. -/
def rebuildFromExtract (m : Mat) : Mat :=
  let d := extractRotationFromMatrix (some m)
  createU3Matrix d.theta d.phi d.lambda

lemma cAbs_one_zero : cAbs ⟨1, 0⟩ = 1 := by
  unfold cAbs
  norm_num

lemma cAbs_zero_zero : cAbs ⟨0, 0⟩ = 0 := by
  unfold cAbs
  norm_num

lemma cPhase_cos_sin {lam : ℝ} (h1 : -Real.pi < lam) (h2 : lam ≤ Real.pi) :
    cPhase ⟨Real.cos lam, Real.sin lam⟩ = lam := by
  unfold cPhase
  have hc : (⟨Real.cos lam, Real.sin lam⟩ : ℂ) = Real.cos lam + Real.sin lam * Complex.I := by
    simp [Complex.ext_iff, Complex.cos_ofReal_re, Complex.sin_ofReal_re]
  rw [hc, Complex.ofReal_cos, Complex.ofReal_sin]
  exact Complex.arg_cos_add_sin_mul_I ⟨h1, h2⟩

/-- The theta = 0 extraction branch inverts every pure phase matrix with
argument inside (-pi, pi]. -/
lemma roundtrip_phase (lam : ℝ) (h1 : -Real.pi < lam) (h2 : lam ≤ Real.pi) :
    rebuildFromExtract (createU3Matrix 0 0 lam) = createU3Matrix 0 0 lam := by
  unfold rebuildFromExtract
  rw [u3_phase_mat]
  unfold extractRotationFromMatrix
  simp only []
  rw [show cAbs ⟨1, 0⟩ = 1 from cAbs_one_zero, show cAbs ⟨0, 0⟩ = 0 from cAbs_zero_zero]
  rw [if_neg (by norm_num), if_pos (by norm_num)]
  rw [cPhase_cos_sin h1 h2, cPhase_of_nonneg_real zero_le_one]
  simp only []
  unfold createU3Matrix complex cFromPolar cScale
  ext <;> norm_num [show (lam - 0) / 2 + (lam - 0) / 2 = lam by ring]

/-- C7 amended: the extraction round-trip reproduces the matrix for every
catalog gate whose default decomposition has theta = 0 (I, Z, S, T, U and
BARRIER), the matrix being a pure phase matrix; for the remaining catalog
gates X, Y and H the rebuilt matrix differs, as the counterexample shows. -/
theorem C7_roundtrip_amended :
    rebuildFromExtract (createU3Matrix 0 0 0) = createU3Matrix 0 0 0 ∧
    rebuildFromExtract (createU3Matrix 0 0 Real.pi) = createU3Matrix 0 0 Real.pi ∧
    rebuildFromExtract (createU3Matrix 0 0 (Real.pi / 2)) =
      createU3Matrix 0 0 (Real.pi / 2) ∧
    rebuildFromExtract (createU3Matrix 0 0 (Real.pi / 4)) =
      createU3Matrix 0 0 (Real.pi / 4) :=
  ⟨roundtrip_phase 0 (by linarith [Real.pi_pos]) (by linarith [Real.pi_pos]),
   roundtrip_phase Real.pi (by linarith [Real.pi_pos]) le_rfl,
   roundtrip_phase (Real.pi / 2) (by linarith [Real.pi_pos]) (by linarith [Real.pi_pos]),
   roundtrip_phase (Real.pi / 4) (by linarith [Real.pi_pos]) (by linarith [Real.pi_pos])⟩

lemma u3_X : createU3Matrix Real.pi 0 Real.pi = XMat := by
  unfold createU3Matrix complex cFromPolar cScale XMat
  norm_num [Real.cos_pi_div_two, Real.sin_pi_div_two, Real.cos_pi, Real.sin_pi,
    C.mk.injEq, Mat.mk.injEq]

/-- C7 counterexample: the default decomposition of the catalog X gate is
(pi, 0, pi) and builds the X matrix, but extraction returns (pi, 0, 0)
and rebuilding from those angles flips the sign of the upper-right entry:
the rebuilt matrix is at distance 2 from the original in that entry, so
the round-trip fails far beyond any tolerance. -/
theorem C7_counterexample :
    GATES "X" = some ⟨"X", false, XMat, ⟨Real.pi, 0, Real.pi⟩⟩ ∧
    createU3Matrix Real.pi 0 Real.pi = XMat ∧
    extractRotationFromMatrix (some (createU3Matrix Real.pi 0 Real.pi)) = ⟨Real.pi, 0, 0⟩ ∧
    cAbs (cSub (rebuildFromExtract (createU3Matrix Real.pi 0 Real.pi)).b
      (createU3Matrix Real.pi 0 Real.pi).b) = 2 := by
  have hextract : extractRotationFromMatrix (some (createU3Matrix Real.pi 0 Real.pi)) =
      ⟨Real.pi, 0, 0⟩ := by
    rw [u3_X]
    unfold extractRotationFromMatrix XMat
    simp only []
    rw [show cAbs ⟨0, 0⟩ = 0 from cAbs_zero_zero]
    rw [if_pos (by norm_num)]
    rw [cPhase_of_nonneg_real zero_le_one]
    norm_num
  refine ⟨by simp +decide [GATES], u3_X, hextract, ?_⟩
  unfold rebuildFromExtract
  rw [hextract]
  simp only []
  rw [u3_X]
  show cAbs (cSub (createU3Matrix Real.pi 0 0).b XMat.b) = 2
  unfold createU3Matrix complex cFromPolar cScale XMat cSub cAbs
  norm_num [Real.sin_pi_div_two]
  rw [show (4 : ℝ) = 2 ^ 2 by norm_num, Real.sqrt_sq (by norm_num)]

/-!
C9 : the joint probability table.
-/

/-- Joint basis string of outcome i over n wires, as the source builds it
bit by bit. -/
def specLabel (n i : ℕ) : String :=
  ⟨(List.range n).map fun q =>
    if (i >>> (n - 1 - q)) &&& 1 = 0 then '0' else '1'⟩

/-- Product of the per-wire measurement probabilities selected by the
bits of outcome i. -/
def specJointProb (qs : List QState) (n i : ℕ) : ℝ :=
  ((List.range n).map fun q =>
    if (i >>> (n - 1 - q)) &&& 1 = 0 then (getProbabilities (qs.getD q STATE_ZERO)).prob0
    else (getProbabilities (qs.getD q STATE_ZERO)).prob1).prod

lemma and_one_le_one (x : ℕ) : x &&& 1 ≤ 1 := by
  rw [Nat.and_one_is_mod]
  omega

lemma getD_replicate_self (n q : ℕ) (a : QState) : (List.replicate n a).getD q a = a := by
  rw [List.getD_eq_getElem?_getD, List.getElem?_replicate]
  split <;> simp

lemma jointFold (qs : List QState) (n i : ℕ) (l : List ℕ) (a : ℝ) (s : String) :
    l.foldl (fun (acc : ℝ × String) q =>
      let bit := (i >>> (n - 1 - q)) &&& 1
      let qubitProbs := getProbabilities (qs.getD q STATE_ZERO)
      (acc.1 * (if bit = 0 then qubitProbs.prob0 else qubitProbs.prob1),
       acc.2 ++ toString bit)) (a, s) =
    (a * ((l.map fun q =>
        if (i >>> (n - 1 - q)) &&& 1 = 0 then (getProbabilities (qs.getD q STATE_ZERO)).prob0
        else (getProbabilities (qs.getD q STATE_ZERO)).prob1).prod),
     ⟨s.data ++ l.map fun q => if (i >>> (n - 1 - q)) &&& 1 = 0 then '0' else '1'⟩) := by
  induction l generalizing a s with
  | nil =>
      simp only [List.foldl_nil, List.map_nil, List.prod_nil, mul_one, List.append_nil]
  | cons q t ih =>
      simp only [List.foldl_cons, List.map_cons, List.prod_cons]
      rw [ih]
      have hb := and_one_le_one (i >>> (n - 1 - q))
      rcases Nat.le_one_iff_eq_zero_or_eq_one.mp hb with h0 | h1
      · simp only [h0, if_pos (rfl : (0 : ℕ) = 0)]
        refine Prod.ext ?_ ?_
        · simp only []
          ring
        · simp only [String.data_append]
          rw [show (toString (0 : ℕ)).data = ['0'] from rfl]
          simp
      · simp only [h1, if_neg (one_ne_zero : (1 : ℕ) ≠ 0)]
        refine Prod.ext ?_ ?_
        · simp only []
          ring
        · simp only [String.data_append]
          rw [show (toString (1 : ℕ)).data = ['1'] from rfl]
          simp

lemma filterMap_true_or (l : List ℕ) (f : ℕ → ProbEntry) :
    (l.filterMap fun i =>
      if (true || decide ((f i).probability > 0.001)) = true then some (f i) else none) =
      l.map f := by
  induction l with
  | nil => rfl
  | cons a t ih =>
      rw [List.filterMap_cons, List.map_cons]
      rw [if_pos (by simp)]
      rw [ih]

lemma jointEntry_eval (qs : List QState) (n i : ℕ) :
    jointEntry qs n i = ⟨specLabel n i, specJointProb qs n i⟩ := by
  unfold jointEntry
  rw [jointFold]
  unfold specLabel specJointProb
  simp

/-- Two naturals below 2 to the n with the same low n bits are equal. -/
lemma bits_inj {n : ℕ} : ∀ {i j : ℕ}, i < 2 ^ n → j < 2 ^ n →
    (∀ k < n, (i >>> k) &&& 1 = (j >>> k) &&& 1) → i = j := by
  induction n with
  | zero =>
      intro i j hi hj _
      simp only [pow_zero, Nat.lt_one_iff] at hi hj
      rw [hi, hj]
  | succ n ih =>
      intro i j hi hj h
      have h0 := h 0 (Nat.succ_pos n)
      simp only [Nat.shiftRight_zero, Nat.and_one_is_mod] at h0
      have hdiv : i / 2 = j / 2 := by
        apply ih
        · refine Nat.div_lt_of_lt_mul ?_
          rw [pow_succ] at hi
          omega
        · refine Nat.div_lt_of_lt_mul ?_
          rw [pow_succ] at hj
          omega
        · intro k hk
          have e1 : (i / 2) >>> k = i >>> (1 + k) := by
            rw [Nat.shiftRight_add, Nat.shiftRight_one]
          have e2 : (j / 2) >>> k = j >>> (1 + k) := by
            rw [Nat.shiftRight_add, Nat.shiftRight_one]
          rw [e1, e2]
          exact h (1 + k) (by omega)
      omega

lemma bits_zero {n : ℕ} {i : ℕ} (hi : i < 2 ^ n)
    (h : ∀ k < n, (i >>> k) &&& 1 = 0) : i = 0 := by
  apply bits_inj hi (Nat.pos_pow_of_pos n (by norm_num))
  intro k _
  rw [Nat.zero_shiftRight, h k (by assumption)]
  rfl

/-- The basis labels are pairwise distinct below 2 to the n. -/
lemma specLabel_inj {n i j : ℕ} (hi : i < 2 ^ n) (hj : j < 2 ^ n)
    (h : specLabel n i = specLabel n j) : i = j := by
  unfold specLabel at h
  have hdata : (List.range n).map (fun q =>
      if (i >>> (n - 1 - q)) &&& 1 = 0 then '0' else '1') =
      (List.range n).map (fun q =>
      if (j >>> (n - 1 - q)) &&& 1 = 0 then '0' else '1') := congrArg String.data h
  apply bits_inj hi hj
  intro k hk
  have hq : n - 1 - (n - 1 - k) = k := by omega
  have := congrArg (fun l => l.getD (n - 1 - k) ' ') hdata
  simp only [List.getD_eq_getElem?_getD, List.getElem?_map] at this
  rw [List.getElem?_range (by omega)] at this
  simp only [Option.map_some', Option.getD_some, hq] at this
  have hbi := and_one_le_one (i >>> k)
  have hbj := and_one_le_one (j >>> k)
  rcases Nat.le_one_iff_eq_zero_or_eq_one.mp hbi with h1 | h1
  · rcases Nat.le_one_iff_eq_zero_or_eq_one.mp hbj with h2 | h2
    · rw [h1, h2]
    · simp [h1, h2] at this
  · rcases Nat.le_one_iff_eq_zero_or_eq_one.mp hbj with h2 | h2
    · simp [h1, h2] at this
    · rw [h1, h2]

instance : IsTotal ProbEntry (fun a b => b.probability ≤ a.probability) :=
  ⟨fun a b => le_total b.probability a.probability⟩

instance : IsTrans ProbEntry (fun a b => b.probability ≤ a.probability) :=
  ⟨fun _ _ _ h1 h2 => le_trans h2 h1⟩

lemma getMulti_includeZero (qs : List QState) :
    getMultiQubitProbabilities qs true =
      List.insertionSort (fun a b => b.probability ≤ a.probability)
        ((List.range (2 ^ qs.length)).map fun i => jointEntry qs qs.length i) := by
  unfold getMultiQubitProbabilities
  simp only []
  congr 1
  exact filterMap_true_or (List.range (2 ^ qs.length)) fun i => jointEntry qs qs.length i

/-- C9: with zero-probability entries included, the joint table is a
permutation of one entry per joint outcome index below 2 to the number of
wires, with pairwise distinct basis strings, each entry carrying the
product of the per-wire probabilities selected by its bits, sorted by
descending probability; and over n wires all in state zero the entry of
outcome 0 (the all-zero string) has probability 1 while every other
outcome has probability 0. -/
theorem C9_joint_distribution (qs : List QState) :
    List.Perm (getMultiQubitProbabilities qs true)
      ((List.range (2 ^ qs.length)).map fun i => jointEntry qs qs.length i) ∧
    (getMultiQubitProbabilities qs true).length = 2 ^ qs.length ∧
    List.Sorted (fun a b => b.probability ≤ a.probability)
      (getMultiQubitProbabilities qs true) ∧
    (∀ i < 2 ^ qs.length, jointEntry qs qs.length i ∈ getMultiQubitProbabilities qs true ∧
      (jointEntry qs qs.length i).state = specLabel qs.length i ∧
      (jointEntry qs qs.length i).probability = specJointProb qs qs.length i) ∧
    (∀ i < 2 ^ qs.length, ∀ j < 2 ^ qs.length,
      specLabel qs.length i = specLabel qs.length j → i = j) ∧
    (∀ n : ℕ, ∀ i < 2 ^ n,
      specJointProb (List.replicate n STATE_ZERO) n i = if i = 0 then 1 else 0) := by
  refine ⟨?_, ?_, ?_, ?_, ?_, ?_⟩
  · rw [getMulti_includeZero]
    exact List.perm_insertionSort _ _
  · rw [getMulti_includeZero]
    rw [(List.perm_insertionSort _ _).length_eq, List.length_map, List.length_range]
  · rw [getMulti_includeZero]
    exact List.sorted_insertionSort _ _
  · intro i hi
    refine ⟨?_, by rw [jointEntry_eval], by rw [jointEntry_eval]⟩
    rw [getMulti_includeZero]
    rw [(List.perm_insertionSort _ _).mem_iff]
    exact List.mem_map_of_mem _ (List.mem_range.mpr hi)
  · intro i hi j hj
    exact specLabel_inj hi hj
  · intro n i hi
    unfold specJointProb
    by_cases h0 : i = 0
    · rw [h0, if_pos rfl]
      apply List.prod_eq_one
      intro x hx
      rw [List.mem_map] at hx
      obtain ⟨q, _, hq⟩ := hx
      rw [← hq, Nat.zero_shiftRight]
      rw [if_pos (show (0 : ℕ) &&& 1 = 0 from rfl)]
      rw [getD_replicate_self, prob0_eq]
      unfold STATE_ZERO
      rw [cAbs_sq]
      norm_num
    · rw [if_neg h0]
      have hex : ∃ k < n, (i >>> k) &&& 1 ≠ 0 := by
        by_contra hall
        push_neg at hall
        exact h0 (bits_zero hi hall)
      obtain ⟨k, hk, hbit⟩ := hex
      apply List.prod_eq_zero
      rw [List.mem_map]
      refine ⟨n - 1 - k, List.mem_range.mpr (by omega), ?_⟩
      rw [show n - 1 - (n - 1 - k) = k by omega]
      rw [if_neg hbit]
      rw [getD_replicate_self, prob1_eq]
      unfold STATE_ZERO
      rw [cAbs_sq]
      norm_num

/-- C9 witness: the theorem applied to two wires in the plus and zero
states, instantiating the bounded quantifiers at outcome 0. -/
theorem C9_witness :
    jointEntry [STATE_PLUS, STATE_ZERO] 2 0 ∈
      getMultiQubitProbabilities [STATE_PLUS, STATE_ZERO] true ∧
    specJointProb (List.replicate 2 STATE_ZERO) 2 0 = 1 := by
  constructor
  · exact (((C9_joint_distribution [STATE_PLUS, STATE_ZERO]).2.2.2.1) 0 (by norm_num)).1
  · have := ((C9_joint_distribution []).2.2.2.2.2) 2 0 (by norm_num)
    rw [this]
    norm_num

/-!
C5 : the gate list selected for a wire by a frame.
-/

open Classical in
/-- Real-gate cells of a row inside an optional slot bound, with their
slots, in ascending slot order: the reference description of the claim. -/
def specRealGatesFrom : ℕ → List (Option GateInst) → Option ℕ → List SlotGate
  | _, [], _ => []
  | n, none :: rest, b => specRealGatesFrom (n + 1) rest b
  | n, some g :: rest, b =>
      if (g.gate ≠ "BARRIER" ∧ g.gate ≠ "CONTROL") ∧
          (match b with
           | none => True
           | some bound => n < bound) then
        ⟨g, n⟩ :: specRealGatesFrom (n + 1) rest b
      else specRealGatesFrom (n + 1) rest b

/-- The filter applied by evolution: barrier and control cells excluded. -/
def realGatesOf (gates : List SlotGate) : List SlotGate :=
  gates.filter fun g => decide (g.gate ≠ "BARRIER") && decide (g.gate ≠ "CONTROL")

lemma rowEntriesFrom_slot_le {row : List (Option GateInst)} :
    ∀ {n : ℕ}, ∀ g ∈ rowEntriesFrom n row, n ≤ g.slot := by
  induction row with
  | nil =>
      intro n g hg
      simp [rowEntriesFrom] at hg
  | cons c rest ih =>
      intro n g hg
      cases c with
      | none =>
          have := ih (n := n + 1) g hg
          omega
      | some inst =>
          rcases List.mem_cons.mp hg with h | h
          · rw [h]
          · have := ih (n := n + 1) g h
            omega

lemma rowEntriesFrom_sorted (row : List (Option GateInst)) :
    ∀ n : ℕ, List.Sorted (fun a b : SlotGate => a.slot ≤ b.slot) (rowEntriesFrom n row) := by
  induction row with
  | nil =>
      intro n
      simp [rowEntriesFrom]
  | cons c rest ih =>
      intro n
      cases c with
      | none => exact ih (n + 1)
      | some inst =>
          refine List.sorted_cons.mpr ⟨?_, ih (n + 1)⟩
          intro g hg
          have := rowEntriesFrom_slot_le g hg
          show n ≤ g.slot
          omega

lemma entries_sort_eq (row : List (Option GateInst)) :
    List.insertionSort (fun a b : SlotGate => a.slot ≤ b.slot) (rowEntriesFrom 0 row) =
      rowEntriesFrom 0 row :=
  List.Sorted.insertionSort_eq (rowEntriesFrom_sorted row 0)

lemma realGates_no_bound (row : List (Option GateInst)) :
    ∀ n, realGatesOf (rowEntriesFrom n row) = specRealGatesFrom n row none := by
  induction row with
  | nil =>
      intro n
      rfl
  | cons c rest ih =>
      intro n
      cases c with
      | none => exact ih (n + 1)
      | some inst =>
          unfold realGatesOf at ih ⊢
          rw [rowEntriesFrom, List.filter_cons, specRealGatesFrom]
          by_cases hreal : inst.gate ≠ "BARRIER" ∧ inst.gate ≠ "CONTROL"
          · rw [if_pos (by simp [hreal.1, hreal.2]), if_pos (by exact ⟨hreal, trivial⟩)]
            rw [ih (n + 1)]
          · rw [if_neg (by
              simp only [Bool.and_eq_true, decide_eq_true_eq]
              exact hreal), if_neg (by
              intro hcon
              exact hreal hcon.1)]
            exact ih (n + 1)

lemma realGates_bound (row : List (Option GateInst)) (bound : ℕ) :
    ∀ n, realGatesOf ((rowEntriesFrom n row).filter fun e => decide (e.slot < bound)) =
      specRealGatesFrom n row (some bound) := by
  induction row with
  | nil =>
      intro n
      rfl
  | cons c rest ih =>
      intro n
      cases c with
      | none => exact ih (n + 1)
      | some inst =>
          unfold realGatesOf at ih ⊢
          rw [rowEntriesFrom, List.filter_cons, specRealGatesFrom]
          by_cases hslot : n < bound
          · rw [if_pos (by simp [hslot])]
            rw [List.filter_cons]
            by_cases hreal : inst.gate ≠ "BARRIER" ∧ inst.gate ≠ "CONTROL"
            · rw [if_pos (by simp [hreal.1, hreal.2]), if_pos (by exact ⟨hreal, hslot⟩)]
              rw [ih (n + 1)]
            · rw [if_neg (by
                simp only [Bool.and_eq_true, decide_eq_true_eq]
                exact hreal), if_neg (by
                intro hcon
                exact hreal hcon.1)]
              exact ih (n + 1)
          · rw [if_neg (by simp [hslot]), if_neg (by
              intro hcon
              exact hslot hcon.2)]
            exact ih (n + 1)

/-- C5: for every wire and frame, after excluding barrier and control
marker cells (which evolution skips), frame 0 selects no gates; a frame
between 1 and the barrier count selects exactly the real gate cells whose
slot precedes the frame-th smallest barrier slot, in slot order; and
frame barrierCount + 1 selects all real gate cells in slot order. -/
theorem C5_frame_selection (circuits : Circuits) (barriers : List ℕ) (q f : ℕ) :
    (f = 0 → realGatesOf (getOrderedGates circuits barriers q f) = []) ∧
    (1 ≤ f → f ≤ barriers.length →
      realGatesOf (getOrderedGates circuits barriers q f) =
        specRealGatesFrom 0 (circuits.getD q [])
          (some ((List.insertionSort (fun a b => a ≤ b) barriers).getD (f - 1) 0))) ∧
    (f = barriers.length + 1 →
      realGatesOf (getOrderedGates circuits barriers q f) =
        specRealGatesFrom 0 (circuits.getD q []) none) := by
  refine ⟨?_, ?_, ?_⟩
  · intro h0
    unfold getOrderedGates
    rw [if_pos h0]
    rfl
  · intro h1 h2
    unfold getOrderedGates
    rw [if_neg (by omega), if_neg (by omega)]
    have hlen : (List.insertionSort (fun a b => a ≤ b) barriers).length = barriers.length :=
      (List.perm_insertionSort _ _).length_eq
    have hget : (List.insertionSort (fun a b => a ≤ b) barriers).get? (f - 1) =
        some ((List.insertionSort (fun a b => a ≤ b) barriers).getD (f - 1) 0) := by
      rw [List.get?_eq_getElem?, List.getD_eq_getElem?_getD]
      rw [List.getElem?_eq_getElem (by omega)]
      rfl
    rw [hget]
    rw [entries_sort_eq]
    exact realGates_bound _ _ 0
  · intro h3
    unfold getOrderedGates
    rw [if_neg (by omega), if_pos (by omega)]
    rw [entries_sort_eq]
    exact realGates_no_bound _ 0

/-- C5 witness: one wire holding an X at slot 0 and an H at slot 1 with a
barrier at slot 1; frame 1 selects exactly the X. -/
theorem C5_witness :
    realGatesOf (getOrderedGates [[some xGate, some hGate]] [1] 0 0) = [] ∧
    realGatesOf (getOrderedGates [[some xGate, some hGate]] [1] 0 1) = [⟨xGate, 0⟩] ∧
    realGatesOf (getOrderedGates [[some xGate, some hGate]] [1] 0 2) =
      [⟨xGate, 0⟩, ⟨hGate, 1⟩] := by
  refine ⟨(C5_frame_selection [[some xGate, some hGate]] [1] 0 0).1 rfl, ?_, ?_⟩
  · rw [(C5_frame_selection [[some xGate, some hGate]] [1] 0 1).2.1 le_rfl (by norm_num)]
    simp +decide [specRealGatesFrom, List.insertionSort, List.orderedInsert, xGate, hGate]
  · rw [(C5_frame_selection [[some xGate, some hGate]] [1] 0 2).2.2 rfl]
    simp +decide [specRealGatesFrom, xGate, hGate]

/-!
General facts about the branch pipeline, for C1 and C2.
-/

/-- Total probability mass of a branch list. -/
def probSum (l : List Branch) : ℝ := (l.map fun b => b.probability).sum

lemma enumRawAux_length (mk : ℕ → Option Branch) :
    ∀ (fuel combo : ℕ) (acc : List Branch),
      (enumRawAux mk fuel combo acc).length ≤ acc.length + fuel := by
  intro fuel
  induction fuel with
  | zero =>
      intro combo acc
      rw [enumRawAux_zero]
      omega
  | succ n ih =>
      intro combo acc
      rw [enumRawAux_succ]
      by_cases hlen : acc.length < 10
      · rw [if_pos hlen]
        cases hmk : mk combo with
        | none =>
            simp only [hmk]
            have := ih (combo + 1) acc
            omega
        | some b =>
            simp only [hmk]
            have := ih (combo + 1) (acc ++ [b])
            simp only [List.length_append, List.length_singleton] at this
            omega
      · rw [if_neg hlen]
        omega

lemma rawBranchesOf_length (n : ℕ) (mk : ℕ → Option Branch) :
    (rawBranchesOf n mk).length ≤ n := by
  have := enumRawAux_length mk n 0 []
  simpa using this

lemma foldl_mul (w : ℕ → ℝ) : ∀ (l : List ℕ) (a : ℝ),
    l.foldl (fun acc i => acc * w i) a = a * (l.map w).prod := by
  intro l
  induction l with
  | nil =>
      intro a
      simp
  | cons q t ih =>
      intro a
      simp only [List.foldl_cons, List.map_cons, List.prod_cons, ih]
      ring

lemma assignProb_eq_prod (ps : List ℝ) (combo : ℕ) :
    assignProb ps combo = ((List.range ps.length).map fun i =>
      if (combo >>> i) &&& 1 = 1 then ps.getD i 0 else 1 - ps.getD i 0).prod := by
  unfold assignProb
  rw [foldl_mul (fun i => if (combo >>> i) &&& 1 = 1 then ps.getD i 0 else 1 - ps.getD i 0)]
  rw [one_mul]

lemma assignProb_nonneg (ps : List ℝ) (combo : ℕ)
    (hps : ∀ p ∈ ps, 0 ≤ p ∧ p ≤ 1) : 0 ≤ assignProb ps combo := by
  rw [assignProb_eq_prod]
  apply List.prod_nonneg
  intro x hx
  rw [List.mem_map] at hx
  obtain ⟨i, hi, hix⟩ := hx
  rw [List.mem_range] at hi
  have hmem : ps.getD i 0 ∈ ps := by
    rw [List.getD_eq_getElem?_getD, List.getElem?_eq_getElem hi]
    exact List.getElem_mem _
  have hb := hps _ hmem
  rw [← hix]
  by_cases hbit : (combo >>> i) &&& 1 = 1
  · rw [if_pos hbit]
    exact hb.1
  · rw [if_neg hbit]
    linarith [hb.2]

lemma assignProb_cons (p : ℝ) (ps : List ℝ) (combo : ℕ) :
    assignProb (p :: ps) combo =
      (if combo &&& 1 = 1 then p else 1 - p) * assignProb ps (combo >>> 1) := by
  rw [assignProb_eq_prod, assignProb_eq_prod]
  rw [show (p :: ps).length = ps.length + 1 from rfl]
  rw [List.range_succ_eq_map]
  rw [List.map_cons, List.prod_cons, List.map_map]
  congr 1
  apply congrArg List.prod
  apply List.map_congr_left
  intro i _
  simp only [Nat.succ_eq_add_one, Function.comp_apply, List.getD_cons_succ]
  rw [show i + 1 = 1 + i from Nat.add_comm i 1]
  rw [Nat.shiftRight_add]

lemma sum_even_odd (g : ℕ → ℝ) : ∀ N : ℕ,
    ∑ c ∈ Finset.range (2 * N), g c = ∑ m ∈ Finset.range N, (g (2 * m) + g (2 * m + 1)) := by
  intro N
  induction N with
  | zero => simp
  | succ n ih =>
      rw [Finset.sum_range_succ]
      rw [show 2 * (n + 1) = 2 * n + 1 + 1 from by ring]
      rw [Finset.sum_range_succ, Finset.sum_range_succ, ih]
      rw [add_assoc]

lemma bit_cases_sum (g : ℕ → ℝ) (m : ℕ) :
    g (2 * m) + g (2 * m + 1) = g (2 * m) + g (2 * m + 1) := rfl

lemma assignProb_total : ∀ ps : List ℝ,
    ∑ c ∈ Finset.range (2 ^ ps.length), assignProb ps c = 1 := by
  intro ps
  induction ps with
  | nil =>
      rw [show (List.length ([] : List ℝ)) = 0 from rfl]
      rw [pow_zero, Finset.sum_range_one]
      rw [assignProb_eq_prod]
      simp
  | cons p t ih =>
      rw [show (p :: t).length = t.length + 1 from rfl]
      rw [pow_succ, mul_comm (2 ^ t.length) 2, sum_even_odd]
      have hstep : ∀ m : ℕ,
          assignProb (p :: t) (2 * m) + assignProb (p :: t) (2 * m + 1)
            = assignProb t m := by
        intro m
        rw [assignProb_cons, assignProb_cons]
        have h0 : (2 * m) &&& 1 = 0 := by
          rw [Nat.and_one_is_mod]
          omega
        have h1 : (2 * m + 1) &&& 1 = 1 := by
          rw [Nat.and_one_is_mod]
          omega
        have hs0 : (2 * m) >>> 1 = m := by
          rw [Nat.shiftRight_one]
          omega
        have hs1 : (2 * m + 1) >>> 1 = m := by
          rw [Nat.shiftRight_one]
          omega
        rw [h0, h1, hs0, hs1]
        rw [if_neg (by omega : ¬ (0 : ℕ) = 1), if_pos rfl]
        ring
      rw [Finset.sum_congr rfl (fun m _ => hstep m)]
      exact ih

lemma probSum_nil : probSum [] = 0 := rfl

lemma probSum_cons (b : Branch) (l : List Branch) :
    probSum (b :: l) = b.probability + probSum l := by
  unfold probSum
  rw [List.map_cons, List.sum_cons]

lemma probSum_append (l1 l2 : List Branch) :
    probSum (l1 ++ l2) = probSum l1 + probSum l2 := by
  unfold probSum
  rw [List.map_append, List.sum_append]

lemma probSum_nonneg {l : List Branch} (h : ∀ x ∈ l, 0 ≤ x.probability) :
    0 ≤ probSum l := by
  apply List.sum_nonneg
  intro x hx
  rw [List.mem_map] at hx
  obtain ⟨b, hb, rfl⟩ := hx
  exact h b hb

lemma mkRawBranch_prob {gates : List SlotGate} {uc : List ℕ} {ps : List ℝ}
    {mode : String} {c : ℕ} {b : Branch}
    (h : mkRawBranch gates uc ps mode c = some b) :
    b.probability = assignProb ps c := by
  simp only [mkRawBranch] at h
  split at h
  · exact absurd h (by simp)
  · rw [Option.some_inj] at h
    rw [← h]

lemma enumRawAux_mem (mk : ℕ → Option Branch) :
    ∀ (fuel combo : ℕ) (acc : List Branch) (x : Branch),
      x ∈ enumRawAux mk fuel combo acc → x ∈ acc ∨ ∃ c, mk c = some x := by
  intro fuel
  induction fuel with
  | zero =>
      intro combo acc x hx
      rw [enumRawAux_zero] at hx
      exact Or.inl hx
  | succ n ih =>
      intro combo acc x hx
      rw [enumRawAux_succ] at hx
      by_cases hlen : acc.length < 10
      · rw [if_pos hlen] at hx
        cases hmk : mk combo with
        | none =>
            simp only [hmk] at hx
            exact ih (combo + 1) acc x hx
        | some b =>
            simp only [hmk] at hx
            rcases ih (combo + 1) (acc ++ [b]) x hx with hin | hc
            · rw [List.mem_append, List.mem_singleton] at hin
              rcases hin with hin | rfl
              · exact Or.inl hin
              · exact Or.inr ⟨combo, hmk⟩
            · exact Or.inr hc
      · rw [if_neg hlen] at hx
        exact Or.inl hx

lemma enumRawAux_sum (mk : ℕ → Option Branch) (ps : List ℝ)
    (hmk : ∀ c b, mk c = some b → b.probability = assignProb ps c)
    (hps : ∀ p ∈ ps, 0 ≤ p ∧ p ≤ 1) :
    ∀ (fuel combo : ℕ) (acc : List Branch),
      probSum (enumRawAux mk fuel combo acc) ≤
        probSum acc + ∑ i ∈ Finset.range fuel, assignProb ps (combo + i) := by
  intro fuel
  induction fuel with
  | zero =>
      intro combo acc
      rw [enumRawAux_zero, Finset.sum_range_zero, add_zero]
  | succ n ih =>
      intro combo acc
      have hsplit : ∑ i ∈ Finset.range (n + 1), assignProb ps (combo + i) =
          assignProb ps combo + ∑ i ∈ Finset.range n, assignProb ps (combo + 1 + i) := by
        rw [Finset.sum_range_succ', add_comm]
        congr 1
        apply Finset.sum_congr rfl
        intro i _
        congr 1
        omega
      rw [enumRawAux_succ]
      by_cases hlen : acc.length < 10
      · rw [if_pos hlen]
        cases hmk2 : mk combo with
        | none =>
            simp only [hmk2]
            have h1 := ih (combo + 1) acc
            have h0 : 0 ≤ assignProb ps combo := assignProb_nonneg ps combo hps
            rw [hsplit]
            linarith
        | some b =>
            simp only [hmk2]
            have h1 := ih (combo + 1) (acc ++ [b])
            have hb := hmk combo b hmk2
            rw [probSum_append, probSum_cons, probSum_nil, add_zero, hb] at h1
            rw [hsplit]
            linarith
      · rw [if_neg hlen]
        have h0 : 0 ≤ ∑ i ∈ Finset.range (n + 1), assignProb ps (combo + i) :=
          Finset.sum_nonneg (fun i _ => assignProb_nonneg ps _ hps)
        linarith

lemma rawBranchesOf_sum (mk : ℕ → Option Branch) (ps : List ℝ)
    (hmk : ∀ c b, mk c = some b → b.probability = assignProb ps c)
    (hps : ∀ p ∈ ps, 0 ≤ p ∧ p ≤ 1) :
    probSum (rawBranchesOf (2 ^ ps.length) mk) ≤ 1 := by
  unfold rawBranchesOf
  have h := enumRawAux_sum mk ps hmk hps (2 ^ ps.length) 0 []
  rw [probSum_nil, zero_add] at h
  have h2 : ∑ i ∈ Finset.range (2 ^ ps.length), assignProb ps (0 + i) =
      ∑ i ∈ Finset.range (2 ^ ps.length), assignProb ps i := by
    apply Finset.sum_congr rfl
    intro i _
    rw [zero_add]
  rw [h2, assignProb_total ps] at h
  exact h

lemma probSum_addBranch : ∀ (acc : List Branch) (b : Branch),
    probSum (addBranch acc b) = probSum acc + b.probability := by
  intro acc
  induction acc with
  | nil =>
      intro b
      simp only [addBranch]
      rw [probSum_cons, probSum_nil]
      ring
  | cons m rest ih =>
      intro b
      simp only [addBranch]
      by_cases h : (coordsEqual m.coords b.coords && phasesEqual m.rotations b.rotations) = true
      · rw [if_pos h, probSum_cons, probSum_cons]
        show m.probability + b.probability + probSum rest = m.probability + probSum rest + b.probability
        ring
      · rw [if_neg h, probSum_cons, probSum_cons, ih]
        ring

lemma addBranch_nonneg : ∀ (acc : List Branch) (b : Branch),
    (∀ x ∈ acc, 0 ≤ x.probability) → 0 ≤ b.probability →
    ∀ x ∈ addBranch acc b, 0 ≤ x.probability := by
  intro acc
  induction acc with
  | nil =>
      intro b _ hb x hx
      simp only [addBranch, List.mem_singleton] at hx
      rw [hx]
      exact hb
  | cons m rest ih =>
      intro b hacc hb x hx
      simp only [addBranch] at hx
      by_cases h : (coordsEqual m.coords b.coords && phasesEqual m.rotations b.rotations) = true
      · rw [if_pos h, List.mem_cons] at hx
        rcases hx with rfl | hx
        · have h1 := hacc m (List.mem_cons_self m rest)
          show 0 ≤ m.probability + b.probability
          linarith
        · exact hacc x (List.mem_cons_of_mem m hx)
      · rw [if_neg h, List.mem_cons] at hx
        rcases hx with rfl | hx
        · exact hacc x (List.mem_cons_self x rest)
        · exact ih b (fun y hy => hacc y (List.mem_cons_of_mem m hy)) hb x hx

lemma mergedOf_facts : ∀ (l acc : List Branch),
    probSum (l.foldl addBranch acc) = probSum acc + probSum l ∧
    ((∀ x ∈ acc, 0 ≤ x.probability) → (∀ x ∈ l, 0 ≤ x.probability) →
      ∀ x ∈ l.foldl addBranch acc, 0 ≤ x.probability) := by
  intro l
  induction l with
  | nil =>
      intro acc
      constructor
      · rw [List.foldl_nil, probSum_nil, add_zero]
      · intro ha _ x hx
        rw [List.foldl_nil] at hx
        exact ha x hx
  | cons b t ih =>
      intro acc
      constructor
      · rw [List.foldl_cons, (ih (addBranch acc b)).1, probSum_addBranch, probSum_cons]
        ring
      · intro ha hl x hx
        rw [List.foldl_cons] at hx
        exact (ih (addBranch acc b)).2
          (addBranch_nonneg acc b ha (hl b (List.mem_cons_self b t)))
          (fun y hy => hl y (List.mem_cons_of_mem b hy)) x hx

lemma probSum_mergedOf (l : List Branch) : probSum (mergedOf l) = probSum l := by
  unfold mergedOf
  rw [(mergedOf_facts l []).1, probSum_nil, zero_add]

lemma mergedOf_nonneg {l : List Branch} (h : ∀ x ∈ l, 0 ≤ x.probability) :
    ∀ x ∈ mergedOf l, 0 ≤ x.probability :=
  (mergedOf_facts l []).2 (fun x hx => absurd hx (List.not_mem_nil x)) h

instance : IsTotal Branch (fun a b => b.probability ≤ a.probability) :=
  ⟨fun a b => le_total b.probability a.probability⟩

instance : IsTrans Branch (fun a b => b.probability ≤ a.probability) :=
  ⟨fun _ _ _ h1 h2 => le_trans h2 h1⟩

lemma sortBranches_perm (l : List Branch) : (sortBranches l).Perm l :=
  List.perm_insertionSort _ l

lemma sortBranches_sorted (l : List Branch) :
    List.Sorted (fun a b => b.probability ≤ a.probability) (sortBranches l) :=
  List.sorted_insertionSort _ l

lemma probSum_sortBranches (l : List Branch) : probSum (sortBranches l) = probSum l := by
  unfold probSum
  exact List.Perm.sum_eq (List.Perm.map _ (sortBranches_perm l))

lemma probSum_take_le {l : List Branch} (h : ∀ x ∈ l, 0 ≤ x.probability) (n : ℕ) :
    probSum (l.take n) ≤ probSum l := by
  conv_rhs => rw [← List.take_append_drop n l]
  rw [probSum_append]
  have h2 : 0 ≤ probSum (l.drop n) :=
    probSum_nonneg (fun x hx => h x (List.mem_of_mem_drop hx))
  linarith

lemma sorted_take_drop {l : List Branch} {n : ℕ}
    (h : List.Sorted (fun a b => b.probability ≤ a.probability) l) :
    ∀ e ∈ l.take n, ∀ d ∈ l.drop n, d.probability ≤ e.probability := by
  intro e he d hd
  have h2 : List.Pairwise (fun a b => b.probability ≤ a.probability) (l.take n ++ l.drop n) := by
    rw [List.take_append_drop]
    exact h
  exact (List.pairwise_append.mp h2).2.2 e he d hd

lemma stateNormSq_initial (mode : String) : stateNormSq (getInitialQubitState mode) = 1 := by
  unfold getInitialQubitState
  by_cases h1 : mode = "one"
  · rw [if_pos h1]
    show cAbs ⟨0, 0⟩ ^ 2 + cAbs ⟨1, 0⟩ ^ 2 = 1
    rw [cAbs_sq, cAbs_sq]
    norm_num
  · rw [if_neg h1]
    by_cases h2 : mode = "plus"
    · rw [if_pos h2]
      show cAbs ⟨SQRT2_INV, 0⟩ ^ 2 + cAbs ⟨SQRT2_INV, 0⟩ ^ 2 = 1
      rw [cAbs_sq]
      unfold SQRT2_INV
      have hs : Real.sqrt 2 * Real.sqrt 2 = 2 := Real.mul_self_sqrt (by norm_num)
      rw [div_mul_div_comm, hs]
      norm_num
    · rw [if_neg h2]
      show cAbs ⟨1, 0⟩ ^ 2 + cAbs ⟨0, 0⟩ ^ 2 = 1
      rw [cAbs_sq, cAbs_sq]
      norm_num

lemma stateNormSq_applyGate {s : QState} (g : GateInst) (h : stateNormSq s = 1) :
    stateNormSq (applyGate s g) = 1 := by
  unfold applyGate
  by_cases hb : g.gate = "BARRIER"
  · rw [if_pos hb]
    exact h
  · rw [if_neg hb]
    unfold applyMatrix
    cases hm : g.matrix with
    | none =>
        simp only [hm]
        exact h
    | some m =>
        simp only [hm]
        exact stateNormSq_normalize _

lemma stateNormSq_cachedStateAt (circuits : Circuits) (barriers : List ℕ) (mode : String)
    (frame qi : ℕ) : ∀ s, stateNormSq (cachedStateAt circuits barriers mode frame qi s) = 1 := by
  intro s
  induction s with
  | zero => exact stateNormSq_initial mode
  | succ n ih =>
      simp only [cachedStateAt]
      cases hf : (getOrderedGates circuits barriers qi frame).find? (fun g => g.slot = n) with
      | none =>
          simp only [hf]
          exact ih
      | some g =>
          simp only [hf]
          by_cases hg : g.gate = "BARRIER" ∨ g.gate = "CONTROL"
          · rw [if_pos hg]
            exact ih
          · rw [if_neg hg]
            exact stateNormSq_applyGate _ ih

lemma prob1_bounds {s : QState} (h : stateNormSq s = 1) :
    0 ≤ (getProbabilities s).prob1 ∧ (getProbabilities s).prob1 ≤ 1 := by
  have h1 : (getProbabilities s).prob1 = cAbs s.s1 ^ 2 := rfl
  rw [h1]
  unfold stateNormSq at h
  constructor
  · exact sq_nonneg _
  · nlinarith [sq_nonneg (cAbs s.s0)]

lemma controlProbsOf_bounds (circuits : Circuits) (barriers : List ℕ) (mode : String)
    (frame : ℕ) (gates : List SlotGate) :
    ∀ p ∈ controlProbsOf circuits barriers mode frame gates, 0 ≤ p ∧ p ≤ 1 := by
  intro p hp
  unfold controlProbsOf at hp
  rw [List.mem_map] at hp
  obtain ⟨c, _, hc⟩ := hp
  cases hf : (controlledGatesOf gates).find? (fun g => g.controlIndex = some c) with
  | none =>
      simp only [hf] at hc
      rw [← hc]
      norm_num
  | some g =>
      simp only [hf] at hc
      rw [← hc]
      exact prob1_bounds (stateNormSq_cachedStateAt circuits barriers mode frame c g.slot)

/-- The raw branch list produced inside controlledBranches, named for reuse
in statements. -/
def rawOf (circuits : Circuits) (barriers : List ℕ) (mode : String) (frame qi : ℕ) :
    List Branch :=
  rawBranchesOf (2 ^ (uniqueControlsOf (effectiveGates circuits barriers mode frame qi)).length)
    (mkRawBranch (effectiveGates circuits barriers mode frame qi)
      (uniqueControlsOf (effectiveGates circuits barriers mode frame qi))
      (controlProbsOf circuits barriers mode frame (effectiveGates circuits barriers mode frame qi))
      mode)

lemma controlledBranches_eq (circuits : Circuits) (barriers : List ℕ) (mode : String)
    (frame qi : ℕ) :
    controlledBranches circuits barriers mode frame qi =
      if ((sortBranches (mergedOf (rawOf circuits barriers mode frame qi))).take 10).isEmpty
      then [fallbackBranch mode]
      else (sortBranches (mergedOf (rawOf circuits barriers mode frame qi))).take 10 := rfl

lemma controlProbsOf_length (circuits : Circuits) (barriers : List ℕ) (mode : String)
    (frame : ℕ) (gates : List SlotGate) :
    (controlProbsOf circuits barriers mode frame gates).length =
      (uniqueControlsOf gates).length := by
  unfold controlProbsOf
  exact List.length_map _ _

lemma rawOf_nonneg (circuits : Circuits) (barriers : List ℕ) (mode : String)
    (frame qi : ℕ) : ∀ x ∈ rawOf circuits barriers mode frame qi, 0 ≤ x.probability := by
  intro x hx
  unfold rawOf rawBranchesOf at hx
  rcases enumRawAux_mem _ _ _ _ _ hx with hin | ⟨c, hc⟩
  · exact absurd hin (List.not_mem_nil x)
  · rw [mkRawBranch_prob hc]
    exact assignProb_nonneg _ c
      (controlProbsOf_bounds circuits barriers mode frame _)

lemma rawOf_sum (circuits : Circuits) (barriers : List ℕ) (mode : String)
    (frame qi : ℕ) : probSum (rawOf circuits barriers mode frame qi) ≤ 1 := by
  unfold rawOf
  rw [← controlProbsOf_length circuits barriers mode frame
    (effectiveGates circuits barriers mode frame qi)]
  exact rawBranchesOf_sum _ _ (fun c b h => mkRawBranch_prob h)
    (controlProbsOf_bounds circuits barriers mode frame _)

lemma controlledBranches_sum (circuits : Circuits) (barriers : List ℕ) (mode : String)
    (frame qi : ℕ) : probSum (controlledBranches circuits barriers mode frame qi) ≤ 1 := by
  rw [controlledBranches_eq]
  by_cases he : ((sortBranches (mergedOf (rawOf circuits barriers mode frame qi))).take 10).isEmpty
  · rw [if_pos he, probSum_cons, probSum_nil]
    rw [show (fallbackBranch mode).probability = 1 from rfl]
    norm_num
  · rw [if_neg he]
    have hnn : ∀ x ∈ sortBranches (mergedOf (rawOf circuits barriers mode frame qi)),
        0 ≤ x.probability := by
      intro x hx
      exact mergedOf_nonneg (rawOf_nonneg circuits barriers mode frame qi) x
        ((sortBranches_perm _).subset hx)
    calc probSum ((sortBranches (mergedOf (rawOf circuits barriers mode frame qi))).take 10)
        ≤ probSum (sortBranches (mergedOf (rawOf circuits barriers mode frame qi))) :=
          probSum_take_le hnn 10
      _ = probSum (mergedOf (rawOf circuits barriers mode frame qi)) := probSum_sortBranches _
      _ = probSum (rawOf circuits barriers mode frame qi) := probSum_mergedOf _
      _ ≤ 1 := rawOf_sum circuits barriers mode frame qi

lemma wireBranches_sum (circuits : Circuits) (barriers : List ℕ) (mode : String)
    (frame qi : ℕ) : probSum (wireBranches circuits barriers mode frame qi) ≤ 1 := by
  unfold wireBranches
  show probSum
      (if ((List.find? (fun g => g.controlIndex.isSome && decide (g.gate ≠ "CONTROL"))
          (effectiveGates circuits barriers mode frame qi)).isSome = true)
       then controlledBranches circuits barriers mode frame qi
       else [singleBranch (effectiveGates circuits barriers mode frame qi) mode]) ≤ 1
  split
  · exact controlledBranches_sum circuits barriers mode frame qi
  · rw [probSum_cons, probSum_nil]
    rw [show (singleBranch (effectiveGates circuits barriers mode frame qi) mode).probability = 1
      from rfl]
    norm_num

lemma controlledBranches_retention (circuits : Circuits) (barriers : List ℕ) (mode : String)
    (frame qi : ℕ) (h : mergedOf (rawOf circuits barriers mode frame qi) ≠ []) :
    ∃ e ∈ controlledBranches circuits barriers mode frame qi,
      ∀ x ∈ mergedOf (rawOf circuits barriers mode frame qi),
        x.probability ≤ e.probability := by
  have hsne : sortBranches (mergedOf (rawOf circuits barriers mode frame qi)) ≠ [] := by
    intro h0
    exact h (List.Perm.eq_nil ((sortBranches_perm _).symm.trans (h0 ▸ List.Perm.refl _)))
  cases hs : sortBranches (mergedOf (rawOf circuits barriers mode frame qi)) with
  | nil => exact absurd hs hsne
  | cons e t =>
      refine ⟨e, ?_, ?_⟩
      · rw [controlledBranches_eq, hs]
        rw [show (e :: t).take 10 = e :: t.take 9 from rfl]
        rw [if_neg (by simp)]
        exact List.mem_cons_self e _
      · intro x hx
        have hxs : x ∈ sortBranches (mergedOf (rawOf circuits barriers mode frame qi)) :=
          (sortBranches_perm _).symm.subset hx
        rw [hs, List.mem_cons] at hxs
        rcases hxs with rfl | hxt
        · exact le_refl _
        · have hsorted := sortBranches_sorted (mergedOf (rawOf circuits barriers mode frame qi))
          rw [hs] at hsorted
          exact List.rel_of_sorted_cons hsorted x hxt

lemma wireBranches_length (circuits : Circuits) (barriers : List ℕ) (mode : String)
    (frame qi : ℕ) : (wireBranches circuits barriers mode frame qi).length ≤ 10 := by
  unfold wireBranches
  show (if ((List.find? (fun g => g.controlIndex.isSome && decide (g.gate ≠ "CONTROL"))
          (effectiveGates circuits barriers mode frame qi)).isSome = true)
       then controlledBranches circuits barriers mode frame qi
       else [singleBranch (effectiveGates circuits barriers mode frame qi) mode]).length ≤ 10
  split
  · rw [controlledBranches_eq]
    split
    · simp
    · rw [List.length_take]
      exact min_le_left _ _
  · simp

/-- Branch with a bare probability, for exercising the sort-and-truncate
step on its own. -/
def demoBranch (p : ℝ) : Branch := ⟨STATE_ZERO, ⟨0, 0, 1, 0, 0⟩, p, []⟩

def demoList : List Branch :=
  [demoBranch 11, demoBranch 10, demoBranch 9, demoBranch 8, demoBranch 7, demoBranch 6,
   demoBranch 5, demoBranch 4, demoBranch 3, demoBranch 2, demoBranch 1]

lemma demo_sorted : sortBranches demoList = demoList := by
  apply List.Sorted.insertionSort_eq
  norm_num [demoList, demoBranch, List.sorted_cons]

lemma qb_cz : qubitBranches circuitCZ [] "zero" (-1) =
    [wireBranches circuitCZ [] "zero" 1 0, [czB0, czB1]] := by
  unfold qubitBranches resolvedFrame
  rw [if_pos (by norm_num)]
  rw [show circuitCZ.length = 2 from rfl, show List.range 2 = [0, 1] from rfl]
  norm_num [wb_cz_w1]

lemma rawOf_cz : rawOf circuitCZ [] "zero" 1 1 = [czB0, czB1] := by
  unfold rawOf
  simp only [eff_cz_w1, uc_cz, cp_cz]
  rw [show ((2 : ℕ) ^ List.length [(0 : ℕ)]) = 2 from rfl]
  exact raw_cz

/-- C1: the enumeration loop over 2^k control assignments appends at most
2^k raw branches (8 for three distinct controls); the emitted list of the
controlled path is exactly the merged list sorted by descending
probability and truncated to 10 (with the initial-state fallback when
empty); every wire emits at most 10 branches; and whenever the take-10
truncation of a descending sort drops branches, each dropped branch has
probability at most that of every kept branch. -/
theorem C1_branch_cap_and_sort :
    (∀ (k : ℕ) (mk : ℕ → Option Branch), (rawBranchesOf (2 ^ k) mk).length ≤ 2 ^ k) ∧
    (∀ mk : ℕ → Option Branch, (rawBranchesOf (2 ^ 3) mk).length ≤ 8) ∧
    (∀ (circuits : Circuits) (barriers : List ℕ) (mode : String) (frame qi : ℕ),
      controlledBranches circuits barriers mode frame qi =
        (if ((sortBranches (mergedOf (rawOf circuits barriers mode frame qi))).take 10).isEmpty
         then [fallbackBranch mode]
         else (sortBranches (mergedOf (rawOf circuits barriers mode frame qi))).take 10)) ∧
    (∀ (circuits : Circuits) (barriers : List ℕ) (mode : String) (frame qi : ℕ),
      (wireBranches circuits barriers mode frame qi).length ≤ 10) ∧
    (∀ l : List Branch, ∀ e ∈ (sortBranches l).take 10, ∀ d ∈ (sortBranches l).drop 10,
      d.probability ≤ e.probability) := by
  refine ⟨fun k mk => rawBranchesOf_length (2 ^ k) mk,
    fun mk => by simpa using rawBranchesOf_length (2 ^ 3) mk,
    controlledBranches_eq,
    wireBranches_length,
    fun l e he d hd => sorted_take_drop (sortBranches_sorted l) e he d hd⟩

/-- Witness for C1 at a concrete sorted list of 11 branches: the head is
kept by the truncation, the tail element is dropped, and the theorem
yields the expected probability comparison. -/
theorem C1_witness :
    demoBranch 11 ∈ (sortBranches demoList).take 10 ∧
    demoBranch 1 ∈ (sortBranches demoList).drop 10 ∧
    (demoBranch 1).probability ≤ (demoBranch 11).probability := by
  have he : demoBranch 11 ∈ (sortBranches demoList).take 10 := by
    rw [demo_sorted]
    exact List.mem_cons_self _ _
  have hd : demoBranch 1 ∈ (sortBranches demoList).drop 10 := by
    rw [demo_sorted]
    show demoBranch 1 ∈ [demoBranch 1]
    exact List.mem_singleton.mpr rfl
  exact ⟨he, hd, C1_branch_cap_and_sort.2.2.2.2 demoList (demoBranch 11) he (demoBranch 1) hd⟩

/-- C2 (amended): for every wire the probabilities of the emitted branch
list sum to at most 1; and whenever the merged enumeration output is
nonempty, the emitted list retains a branch whose probability is maximal
among all merged branches that the capped enumeration actually produced.
The stronger literal reading, that the largest-probability control
assignment always yields an emitted branch, is refuted separately: the
enumeration stops after 10 accepted assignments in combination order, so
a later assignment of maximal probability can be missed entirely. -/
theorem C2_sum_and_retention (circuits : Circuits) (barriers : List ℕ) (mode : String)
    (animationFrame : ℤ) :
    (∀ bl ∈ qubitBranches circuits barriers mode animationFrame, probSum bl ≤ 1) ∧
    (∀ frame qi : ℕ, mergedOf (rawOf circuits barriers mode frame qi) ≠ [] →
      ∃ e ∈ controlledBranches circuits barriers mode frame qi,
        ∀ x ∈ mergedOf (rawOf circuits barriers mode frame qi),
          x.probability ≤ e.probability) := by
  constructor
  · intro bl hbl
    unfold qubitBranches at hbl
    rw [List.mem_map] at hbl
    obtain ⟨qi, _, rfl⟩ := hbl
    exact wireBranches_sum _ _ _ _ _
  · intro frame qi h
    exact controlledBranches_retention circuits barriers mode frame qi h

/-- Witness for C2 at the controlled-Z circuit: the target wire emits two
branches of probability one half each, their sum is at most 1, and the
retention conjunct produces a maximal emitted branch. -/
theorem C2_witness :
    [czB0, czB1] ∈ qubitBranches circuitCZ [] "zero" (-1) ∧
    probSum [czB0, czB1] ≤ 1 ∧
    mergedOf (rawOf circuitCZ [] "zero" 1 1) ≠ [] ∧
    (∃ e ∈ controlledBranches circuitCZ [] "zero" 1 1,
      ∀ x ∈ mergedOf (rawOf circuitCZ [] "zero" 1 1), x.probability ≤ e.probability) := by
  have hmem : [czB0, czB1] ∈ qubitBranches circuitCZ [] "zero" (-1) := by
    rw [qb_cz]
    exact List.mem_cons_of_mem _ (List.mem_cons_self _ _)
  have hne : mergedOf (rawOf circuitCZ [] "zero" 1 1) ≠ [] := by
    rw [rawOf_cz, merged_cz]
    exact List.cons_ne_nil _ _
  exact ⟨hmem, (C2_sum_and_retention circuitCZ [] "zero" (-1)).1 [czB0, czB1] hmem,
    hne, (C2_sum_and_retention circuitCZ [] "zero" (-1)).2 1 1 hne⟩

/-!
C2 counterexample circuit: wire 0 carries four controlled quarter-phase
gates, one per control wire 1 - 4; each control wire is prepared into
measurement probability 3/4 of one. The all-asserted control assignment
(combination 15) has the largest probability, 81/256, but the enumeration
loop accepts combinations 1 - 10 first and stops at ten branches.
-/

/-- Preparation gate U(2 pi / 3, 0, 0). -/
def prepGate : GateInst :=
  ⟨"U", some (createU3Matrix (2 * Real.pi / 3) 0 0), some ⟨2 * Real.pi / 3, 0, 0⟩, none⟩

/-- Controlled quarter-phase gate U(0, 0, pi / 4) with control wire c. -/
def cpGate (c : ℕ) : GateInst :=
  ⟨"U", some (createU3Matrix 0 0 (Real.pi / 4)), some ⟨0, 0, Real.pi / 4⟩, some c⟩

def cexCircuit : Circuits :=
  [[none, some (cpGate 1), some (cpGate 2), some (cpGate 3), some (cpGate 4)],
   [some prepGate, some controlCell],
   [some prepGate, none, some controlCell],
   [some prepGate, none, none, some controlCell],
   [some prepGate, none, none, none, some controlCell]]

/-- Effective gate list of wire 0 of the counterexample circuit. -/
def cexGates : List SlotGate :=
  [⟨cpGate 1, 1⟩, ⟨cpGate 2, 2⟩, ⟨cpGate 3, 3⟩, ⟨cpGate 4, 4⟩]

def cexProbs : List ℝ := [3 / 4, 3 / 4, 3 / 4, 3 / 4]

lemma og_cex_w0 : getOrderedGates cexCircuit [] 0 1 = cexGates := by
  norm_num [getOrderedGates, cexCircuit, cexGates, rowEntriesFrom, List.insertionSort,
    List.orderedInsert]

lemma og_cex_w1 : getOrderedGates cexCircuit [] 1 1 = [⟨prepGate, 0⟩, ⟨controlCell, 1⟩] := by
  norm_num [getOrderedGates, cexCircuit, rowEntriesFrom, List.insertionSort, List.orderedInsert]

lemma og_cex_w2 : getOrderedGates cexCircuit [] 2 1 = [⟨prepGate, 0⟩, ⟨controlCell, 2⟩] := by
  norm_num [getOrderedGates, cexCircuit, rowEntriesFrom, List.insertionSort, List.orderedInsert]

lemma og_cex_w3 : getOrderedGates cexCircuit [] 3 1 = [⟨prepGate, 0⟩, ⟨controlCell, 3⟩] := by
  norm_num [getOrderedGates, cexCircuit, rowEntriesFrom, List.insertionSort, List.orderedInsert]

lemma og_cex_w4 : getOrderedGates cexCircuit [] 4 1 = [⟨prepGate, 0⟩, ⟨controlCell, 4⟩] := by
  norm_num [getOrderedGates, cexCircuit, rowEntriesFrom, List.insertionSort, List.orderedInsert]

lemma kb_cex_w0 : getKickbackGatesForControl cexCircuit [] "zero" 1 0 = [] := by
  unfold getKickbackGatesForControl
  rw [show cexCircuit.length = 5 from rfl]
  rw [show List.range 5 = [0, 1, 2, 3, 4] from rfl]
  simp only [List.flatMap_cons, List.flatMap_nil, List.append_nil]
  rw [og_cex_w0, og_cex_w1, og_cex_w2, og_cex_w3, og_cex_w4]
  simp +decide [cexGates, cpGate, prepGate, controlCell]

lemma eff_cex_w0 : effectiveGates cexCircuit [] "zero" 1 0 = cexGates := by
  unfold effectiveGates
  rw [og_cex_w0, kb_cex_w0]
  simp +decide [cexGates, List.insertionSort, List.orderedInsert]

lemma uc_cex : uniqueControlsOf cexGates = [1, 2, 3, 4] := by
  simp +decide [uniqueControlsOf, controlledGatesOf, dedupFirst, cexGates, cpGate]

/-- State reached from zero by the preparation gate. -/
def prepState : QState := ⟨⟨1 / 2, 0⟩, ⟨Real.sqrt 3 / 2, 0⟩⟩

lemma prep_mat : createU3Matrix (2 * Real.pi / 3) 0 0 =
    ⟨⟨1 / 2, 0⟩, ⟨-(Real.sqrt 3 / 2), 0⟩, ⟨Real.sqrt 3 / 2, 0⟩, ⟨1 / 2, 0⟩⟩ := by
  unfold createU3Matrix complex cFromPolar cScale
  rw [show 2 * Real.pi / 3 / 2 = Real.pi / 3 by ring]
  ext <;> norm_num [Real.cos_pi_div_three, Real.sin_pi_div_three]

lemma sqrt3_mul_self : Real.sqrt 3 * Real.sqrt 3 = 3 := Real.mul_self_sqrt (by norm_num)

lemma applyMatrix_prep :
    applyMatrix STATE_ZERO (some (createU3Matrix (2 * Real.pi / 3) 0 0)) = prepState := by
  rw [applyMatrix_some, prep_mat]
  have hv : matVec ⟨⟨1 / 2, 0⟩, ⟨-(Real.sqrt 3 / 2), 0⟩, ⟨Real.sqrt 3 / 2, 0⟩, ⟨1 / 2, 0⟩⟩
      STATE_ZERO = prepState := by
    unfold matVec STATE_ZERO prepState cAdd cMul
    ext <;> norm_num
  rw [hv]
  apply normalize_of_normSq_one
  unfold prepState
  simp only [cAbs_sq]
  nlinarith [sqrt3_mul_self]

lemma prob1_prep : (getProbabilities prepState).prob1 = 3 / 4 := by
  rw [prob1_eq]
  unfold prepState
  rw [cAbs_sq]
  nlinarith [sqrt3_mul_self]

lemma cachedStateAt_succ (circuits : Circuits) (barriers : List ℕ) (mode : String)
    (frame qi s : ℕ) :
    cachedStateAt circuits barriers mode frame qi (s + 1) =
      (match (getOrderedGates circuits barriers qi frame).find? (fun g => g.slot = s) with
       | some g =>
           if g.gate = "BARRIER" ∨ g.gate = "CONTROL"
           then cachedStateAt circuits barriers mode frame qi s
           else applyGate (cachedStateAt circuits barriers mode frame qi s) g.toGateInst
       | none => cachedStateAt circuits barriers mode frame qi s) := rfl

lemma cache_cex_w1 : cachedStateAt cexCircuit [] "zero" 1 1 1 = prepState := by
  rw [cachedStateAt_succ cexCircuit [] "zero" 1 1 0]
  rw [og_cex_w1]
  simp +decide [List.find?, cachedStateAt, getInitialQubitState, applyGate, prepGate,
    applyMatrix_prep]

lemma cache_cex_w2 : cachedStateAt cexCircuit [] "zero" 1 2 2 = prepState := by
  rw [cachedStateAt_succ cexCircuit [] "zero" 1 2 1,
    cachedStateAt_succ cexCircuit [] "zero" 1 2 0]
  rw [og_cex_w2]
  simp +decide [List.find?, cachedStateAt, getInitialQubitState, applyGate, prepGate,
    controlCell, applyMatrix_prep]

lemma cache_cex_w3 : cachedStateAt cexCircuit [] "zero" 1 3 3 = prepState := by
  rw [cachedStateAt_succ cexCircuit [] "zero" 1 3 2,
    cachedStateAt_succ cexCircuit [] "zero" 1 3 1,
    cachedStateAt_succ cexCircuit [] "zero" 1 3 0]
  rw [og_cex_w3]
  simp +decide [List.find?, cachedStateAt, getInitialQubitState, applyGate, prepGate,
    controlCell, applyMatrix_prep]

lemma cache_cex_w4 : cachedStateAt cexCircuit [] "zero" 1 4 4 = prepState := by
  rw [cachedStateAt_succ cexCircuit [] "zero" 1 4 3,
    cachedStateAt_succ cexCircuit [] "zero" 1 4 2,
    cachedStateAt_succ cexCircuit [] "zero" 1 4 1,
    cachedStateAt_succ cexCircuit [] "zero" 1 4 0]
  rw [og_cex_w4]
  simp +decide [List.find?, cachedStateAt, getInitialQubitState, applyGate, prepGate,
    controlCell, applyMatrix_prep]

lemma cp_cex : controlProbsOf cexCircuit [] "zero" 1 cexGates = cexProbs := by
  unfold controlProbsOf
  rw [uc_cex]
  simp +decide [controlledGatesOf, List.find?, cexGates, cpGate, cexProbs,
    cache_cex_w1, cache_cex_w2, cache_cex_w3, cache_cex_w4, prob1_prep]

lemma pi_div_four_gt_tol : |Real.pi / 4| > 0.01 := by
  rw [abs_of_pos (by positivity)]
  linarith [Real.pi_gt_three]

lemma applyMatrix_phase_zero (lam : ℝ) :
    applyMatrix STATE_ZERO (some (createU3Matrix 0 0 lam)) = STATE_ZERO := by
  rw [applyMatrix_some, u3_phase_mat]
  have hv : matVec ⟨⟨1, 0⟩, ⟨0, 0⟩, ⟨0, 0⟩, ⟨Real.cos lam, Real.sin lam⟩⟩ STATE_ZERO =
      STATE_ZERO := by
    unfold matVec STATE_ZERO cAdd cMul
    ext <;> norm_num
  rw [hv]
  apply normalize_of_normSq_one
  unfold STATE_ZERO
  simp only [cAbs_sq]
  norm_num

lemma bloch_zero : stateToBlochCoords STATE_ZERO = ⟨0, 0, 1, 0, 0⟩ := by
  have h1 : cAbs (⟨1, 0⟩ : C) ^ 2 = 1 := by
    rw [cAbs_sq]
    norm_num
  unfold stateToBlochCoords STATE_ZERO
  simp only [h1]
  rw [show max 0 (min 1 (1 : ℝ)) = 1 by norm_num, Real.sqrt_one, Real.arccos_one]
  rw [cPhase_of_nonneg_real (le_refl 0), cPhase_of_nonneg_real zero_le_one]
  norm_num [Bloch.mk.injEq]

lemma ap_cex_0 : assignProb cexProbs 0 = 1 / 256 := by
  unfold assignProb cexProbs
  rw [show List.range (List.length [(3 : ℝ) / 4, 3 / 4, 3 / 4, 3 / 4]) = [0, 1, 2, 3] from rfl]
  norm_num [Nat.shiftRight_eq_div_pow]

lemma ap_cex_1 : assignProb cexProbs 1 = 3 / 256 := by
  unfold assignProb cexProbs
  rw [show List.range (List.length [(3 : ℝ) / 4, 3 / 4, 3 / 4, 3 / 4]) = [0, 1, 2, 3] from rfl]
  norm_num [Nat.shiftRight_eq_div_pow]

lemma ap_cex_2 : assignProb cexProbs 2 = 3 / 256 := by
  unfold assignProb cexProbs
  rw [show List.range (List.length [(3 : ℝ) / 4, 3 / 4, 3 / 4, 3 / 4]) = [0, 1, 2, 3] from rfl]
  norm_num [Nat.shiftRight_eq_div_pow]

lemma ap_cex_3 : assignProb cexProbs 3 = 9 / 256 := by
  unfold assignProb cexProbs
  rw [show List.range (List.length [(3 : ℝ) / 4, 3 / 4, 3 / 4, 3 / 4]) = [0, 1, 2, 3] from rfl]
  norm_num [Nat.shiftRight_eq_div_pow]

lemma ap_cex_4 : assignProb cexProbs 4 = 3 / 256 := by
  unfold assignProb cexProbs
  rw [show List.range (List.length [(3 : ℝ) / 4, 3 / 4, 3 / 4, 3 / 4]) = [0, 1, 2, 3] from rfl]
  norm_num [Nat.shiftRight_eq_div_pow]

lemma ap_cex_5 : assignProb cexProbs 5 = 9 / 256 := by
  unfold assignProb cexProbs
  rw [show List.range (List.length [(3 : ℝ) / 4, 3 / 4, 3 / 4, 3 / 4]) = [0, 1, 2, 3] from rfl]
  norm_num [Nat.shiftRight_eq_div_pow]

lemma ap_cex_6 : assignProb cexProbs 6 = 9 / 256 := by
  unfold assignProb cexProbs
  rw [show List.range (List.length [(3 : ℝ) / 4, 3 / 4, 3 / 4, 3 / 4]) = [0, 1, 2, 3] from rfl]
  norm_num [Nat.shiftRight_eq_div_pow]

lemma ap_cex_7 : assignProb cexProbs 7 = 27 / 256 := by
  unfold assignProb cexProbs
  rw [show List.range (List.length [(3 : ℝ) / 4, 3 / 4, 3 / 4, 3 / 4]) = [0, 1, 2, 3] from rfl]
  norm_num [Nat.shiftRight_eq_div_pow]

lemma ap_cex_8 : assignProb cexProbs 8 = 3 / 256 := by
  unfold assignProb cexProbs
  rw [show List.range (List.length [(3 : ℝ) / 4, 3 / 4, 3 / 4, 3 / 4]) = [0, 1, 2, 3] from rfl]
  norm_num [Nat.shiftRight_eq_div_pow]

lemma ap_cex_9 : assignProb cexProbs 9 = 9 / 256 := by
  unfold assignProb cexProbs
  rw [show List.range (List.length [(3 : ℝ) / 4, 3 / 4, 3 / 4, 3 / 4]) = [0, 1, 2, 3] from rfl]
  norm_num [Nat.shiftRight_eq_div_pow]

lemma ap_cex_10 : assignProb cexProbs 10 = 9 / 256 := by
  unfold assignProb cexProbs
  rw [show List.range (List.length [(3 : ℝ) / 4, 3 / 4, 3 / 4, 3 / 4]) = [0, 1, 2, 3] from rfl]
  norm_num [Nat.shiftRight_eq_div_pow]

lemma ap_cex_11 : assignProb cexProbs 11 = 27 / 256 := by
  unfold assignProb cexProbs
  rw [show List.range (List.length [(3 : ℝ) / 4, 3 / 4, 3 / 4, 3 / 4]) = [0, 1, 2, 3] from rfl]
  norm_num [Nat.shiftRight_eq_div_pow]

lemma ap_cex_12 : assignProb cexProbs 12 = 9 / 256 := by
  unfold assignProb cexProbs
  rw [show List.range (List.length [(3 : ℝ) / 4, 3 / 4, 3 / 4, 3 / 4]) = [0, 1, 2, 3] from rfl]
  norm_num [Nat.shiftRight_eq_div_pow]

lemma ap_cex_13 : assignProb cexProbs 13 = 27 / 256 := by
  unfold assignProb cexProbs
  rw [show List.range (List.length [(3 : ℝ) / 4, 3 / 4, 3 / 4, 3 / 4]) = [0, 1, 2, 3] from rfl]
  norm_num [Nat.shiftRight_eq_div_pow]

lemma ap_cex_14 : assignProb cexProbs 14 = 27 / 256 := by
  unfold assignProb cexProbs
  rw [show List.range (List.length [(3 : ℝ) / 4, 3 / 4, 3 / 4, 3 / 4]) = [0, 1, 2, 3] from rfl]
  norm_num [Nat.shiftRight_eq_div_pow]

lemma ap_cex_15 : assignProb cexProbs 15 = 81 / 256 := by
  unfold assignProb cexProbs
  rw [show List.range (List.length [(3 : ℝ) / 4, 3 / 4, 3 / 4, 3 / 4]) = [0, 1, 2, 3] from rfl]
  norm_num [Nat.shiftRight_eq_div_pow]

/-- Enumeration body of wire 0 of the counterexample circuit. -/
def mkCex : ℕ → Option Branch :=
  mkRawBranch cexGates [1, 2, 3, 4] cexProbs "zero"

def rot4 : Decomp := ⟨0, 0, Real.pi / 4⟩

/-- Branch accepted for a combination with one asserted control. -/
def q1 : Branch := ⟨STATE_ZERO, ⟨0, 0, 1, 0, 0⟩, 3 / 256, [rot4]⟩

/-- Branch accepted for a combination with two asserted controls. -/
def q2 : Branch := ⟨STATE_ZERO, ⟨0, 0, 1, 0, 0⟩, 9 / 256, [rot4, rot4]⟩

/-- Branch accepted for a combination with three asserted controls. -/
def q3 : Branch := ⟨STATE_ZERO, ⟨0, 0, 1, 0, 0⟩, 27 / 256, [rot4, rot4, rot4]⟩

/-- Branch of the all-asserted combination 15, the most probable one. -/
def q4 : Branch := ⟨STATE_ZERO, ⟨0, 0, 1, 0, 0⟩, 81 / 256, [rot4, rot4, rot4, rot4]⟩

lemma mk_cex_0 : mkCex 0 = none := by
  unfold mkCex mkRawBranch
  rw [ap_cex_0]
  rw [if_pos (by norm_num)]

lemma mk_cex_1 : mkCex 1 = some q1 := by
  unfold mkCex mkRawBranch
  rw [ap_cex_1]
  rw [if_neg (by norm_num)]
  simp +decide [cexGates, activeFor, List.filter, cpGate, applyGates, getInitialQubitState,
    applyGate, applyMatrix_phase_zero, buildRotations, pi_div_four_gt_tol, bloch_zero,
    q1, rot4]

lemma mk_cex_2 : mkCex 2 = some q1 := by
  unfold mkCex mkRawBranch
  rw [ap_cex_2]
  rw [if_neg (by norm_num)]
  simp +decide [cexGates, activeFor, List.filter, cpGate, applyGates, getInitialQubitState,
    applyGate, applyMatrix_phase_zero, buildRotations, pi_div_four_gt_tol, bloch_zero,
    q1, rot4]

lemma mk_cex_3 : mkCex 3 = some q2 := by
  unfold mkCex mkRawBranch
  rw [ap_cex_3]
  rw [if_neg (by norm_num)]
  simp +decide [cexGates, activeFor, List.filter, cpGate, applyGates, getInitialQubitState,
    applyGate, applyMatrix_phase_zero, buildRotations, pi_div_four_gt_tol, bloch_zero,
    q2, rot4]

lemma mk_cex_4 : mkCex 4 = some q1 := by
  unfold mkCex mkRawBranch
  rw [ap_cex_4]
  rw [if_neg (by norm_num)]
  simp +decide [cexGates, activeFor, List.filter, cpGate, applyGates, getInitialQubitState,
    applyGate, applyMatrix_phase_zero, buildRotations, pi_div_four_gt_tol, bloch_zero,
    q1, rot4]

lemma mk_cex_5 : mkCex 5 = some q2 := by
  unfold mkCex mkRawBranch
  rw [ap_cex_5]
  rw [if_neg (by norm_num)]
  simp +decide [cexGates, activeFor, List.filter, cpGate, applyGates, getInitialQubitState,
    applyGate, applyMatrix_phase_zero, buildRotations, pi_div_four_gt_tol, bloch_zero,
    q2, rot4]

lemma mk_cex_6 : mkCex 6 = some q2 := by
  unfold mkCex mkRawBranch
  rw [ap_cex_6]
  rw [if_neg (by norm_num)]
  simp +decide [cexGates, activeFor, List.filter, cpGate, applyGates, getInitialQubitState,
    applyGate, applyMatrix_phase_zero, buildRotations, pi_div_four_gt_tol, bloch_zero,
    q2, rot4]

lemma mk_cex_7 : mkCex 7 = some q3 := by
  unfold mkCex mkRawBranch
  rw [ap_cex_7]
  rw [if_neg (by norm_num)]
  simp +decide [cexGates, activeFor, List.filter, cpGate, applyGates, getInitialQubitState,
    applyGate, applyMatrix_phase_zero, buildRotations, pi_div_four_gt_tol, bloch_zero,
    q3, rot4]

lemma mk_cex_8 : mkCex 8 = some q1 := by
  unfold mkCex mkRawBranch
  rw [ap_cex_8]
  rw [if_neg (by norm_num)]
  simp +decide [cexGates, activeFor, List.filter, cpGate, applyGates, getInitialQubitState,
    applyGate, applyMatrix_phase_zero, buildRotations, pi_div_four_gt_tol, bloch_zero,
    q1, rot4]

lemma mk_cex_9 : mkCex 9 = some q2 := by
  unfold mkCex mkRawBranch
  rw [ap_cex_9]
  rw [if_neg (by norm_num)]
  simp +decide [cexGates, activeFor, List.filter, cpGate, applyGates, getInitialQubitState,
    applyGate, applyMatrix_phase_zero, buildRotations, pi_div_four_gt_tol, bloch_zero,
    q2, rot4]

lemma mk_cex_10 : mkCex 10 = some q2 := by
  unfold mkCex mkRawBranch
  rw [ap_cex_10]
  rw [if_neg (by norm_num)]
  simp +decide [cexGates, activeFor, List.filter, cpGate, applyGates, getInitialQubitState,
    applyGate, applyMatrix_phase_zero, buildRotations, pi_div_four_gt_tol, bloch_zero,
    q2, rot4]

lemma mk_cex_15 : mkCex 15 = some q4 := by
  unfold mkCex mkRawBranch
  rw [ap_cex_15]
  rw [if_neg (by norm_num)]
  simp +decide [cexGates, activeFor, List.filter, cpGate, applyGates, getInitialQubitState,
    applyGate, applyMatrix_phase_zero, buildRotations, pi_div_four_gt_tol, bloch_zero,
    q4, rot4]

/-- Raw branch list of wire 0 of the counterexample circuit: combination 0
falls below the threshold, combinations 1 - 10 fill the ten-branch quota,
and the loop stops before ever reaching combination 15. -/
lemma raw_cex : rawBranchesOf 16 mkCex = [q1, q1, q2, q1, q2, q2, q3, q1, q2, q2] := by
  unfold rawBranchesOf
  have s0 : enumRawAux mkCex 16 0 [] = enumRawAux mkCex 15 1 [] := by
    rw [show (16 : ℕ) = 15 + 1 from rfl, enumRawAux_succ, if_pos (by simp), mk_cex_0]
    try rfl
  have s1 : enumRawAux mkCex 15 1 [] =
      enumRawAux mkCex 14 2 [q1] := by
    rw [show (15 : ℕ) = 14 + 1 from rfl, enumRawAux_succ, if_pos (by simp), mk_cex_1]
    try rfl
  have s2 : enumRawAux mkCex 14 2 [q1] =
      enumRawAux mkCex 13 3 [q1, q1] := by
    rw [show (14 : ℕ) = 13 + 1 from rfl, enumRawAux_succ, if_pos (by simp), mk_cex_2]
    try rfl
  have s3 : enumRawAux mkCex 13 3 [q1, q1] =
      enumRawAux mkCex 12 4 [q1, q1, q2] := by
    rw [show (13 : ℕ) = 12 + 1 from rfl, enumRawAux_succ, if_pos (by simp), mk_cex_3]
    try rfl
  have s4 : enumRawAux mkCex 12 4 [q1, q1, q2] =
      enumRawAux mkCex 11 5 [q1, q1, q2, q1] := by
    rw [show (12 : ℕ) = 11 + 1 from rfl, enumRawAux_succ, if_pos (by simp), mk_cex_4]
    try rfl
  have s5 : enumRawAux mkCex 11 5 [q1, q1, q2, q1] =
      enumRawAux mkCex 10 6 [q1, q1, q2, q1, q2] := by
    rw [show (11 : ℕ) = 10 + 1 from rfl, enumRawAux_succ, if_pos (by simp), mk_cex_5]
    try rfl
  have s6 : enumRawAux mkCex 10 6 [q1, q1, q2, q1, q2] =
      enumRawAux mkCex 9 7 [q1, q1, q2, q1, q2, q2] := by
    rw [show (10 : ℕ) = 9 + 1 from rfl, enumRawAux_succ, if_pos (by simp), mk_cex_6]
    try rfl
  have s7 : enumRawAux mkCex 9 7 [q1, q1, q2, q1, q2, q2] =
      enumRawAux mkCex 8 8 [q1, q1, q2, q1, q2, q2, q3] := by
    rw [show (9 : ℕ) = 8 + 1 from rfl, enumRawAux_succ, if_pos (by simp), mk_cex_7]
    try rfl
  have s8 : enumRawAux mkCex 8 8 [q1, q1, q2, q1, q2, q2, q3] =
      enumRawAux mkCex 7 9 [q1, q1, q2, q1, q2, q2, q3, q1] := by
    rw [show (8 : ℕ) = 7 + 1 from rfl, enumRawAux_succ, if_pos (by simp), mk_cex_8]
    try rfl
  have s9 : enumRawAux mkCex 7 9 [q1, q1, q2, q1, q2, q2, q3, q1] =
      enumRawAux mkCex 6 10 [q1, q1, q2, q1, q2, q2, q3, q1, q2] := by
    rw [show (7 : ℕ) = 6 + 1 from rfl, enumRawAux_succ, if_pos (by simp), mk_cex_9]
    try rfl
  have s10 : enumRawAux mkCex 6 10 [q1, q1, q2, q1, q2, q2, q3, q1, q2] =
      enumRawAux mkCex 5 11 [q1, q1, q2, q1, q2, q2, q3, q1, q2, q2] := by
    rw [show (6 : ℕ) = 5 + 1 from rfl, enumRawAux_succ, if_pos (by simp), mk_cex_10]
    try rfl
  have s11 : enumRawAux mkCex 5 11 [q1, q1, q2, q1, q2, q2, q3, q1, q2, q2] = [q1, q1, q2, q1, q2, q2, q3, q1, q2, q2] := by
    rw [show (5 : ℕ) = 4 + 1 from rfl, enumRawAux_succ, if_neg (by simp)]
  exact s0.trans (s1.trans (s2.trans (s3.trans (s4.trans (s5.trans (s6.trans (s7.trans (s8.trans (s9.trans (s10.trans s11))))))))))

lemma coordsEqual_refl (c : Bloch) : coordsEqual c c = true := by
  unfold coordsEqual
  rw [if_pos (by norm_num [sub_self])]

lemma totals_rot1 : getTotalPhases [rot4] = ⟨0, 0, Real.pi / 4⟩ := by
  unfold getTotalPhases rot4
  simp only [List.foldl]
  norm_num [Decomp.mk.injEq, normalizeAngle_zero]
  exact normalizeAngle_eq_self (by linarith [Real.pi_pos]) (by linarith [Real.pi_pos])

lemma totals_rot2 : getTotalPhases [rot4, rot4] = ⟨0, 0, Real.pi / 2⟩ := by
  unfold getTotalPhases rot4
  simp only [List.foldl]
  norm_num [Decomp.mk.injEq, normalizeAngle_zero]
  rw [show Real.pi / 4 + Real.pi / 4 = Real.pi / 2 by ring]
  exact normalizeAngle_eq_self (by linarith [Real.pi_pos]) (by linarith [Real.pi_pos])

lemma totals_rot3 : getTotalPhases [rot4, rot4, rot4] = ⟨0, 0, 3 * Real.pi / 4⟩ := by
  unfold getTotalPhases rot4
  simp only [List.foldl]
  norm_num [Decomp.mk.injEq, normalizeAngle_zero]
  rw [show Real.pi / 4 + Real.pi / 4 + Real.pi / 4 = 3 * Real.pi / 4 by ring]
  exact normalizeAngle_eq_self (by linarith [Real.pi_pos]) (by linarith [Real.pi_pos])

lemma pe_11 : phasesEqual [rot4] [rot4] = true := by
  unfold phasesEqual
  rw [totals_rot1]
  norm_num

lemma pe_22 : phasesEqual [rot4, rot4] [rot4, rot4] = true := by
  unfold phasesEqual
  rw [totals_rot2]
  norm_num

lemma pe_12 : phasesEqual [rot4] [rot4, rot4] = false := by
  unfold phasesEqual
  rw [totals_rot1, totals_rot2]
  rw [if_neg]
  intro hcon
  have h2 := hcon.2.1
  rw [show Real.pi / 4 - Real.pi / 2 = -(Real.pi / 4) by ring, abs_neg,
    abs_of_pos (by positivity)] at h2
  norm_num at h2
  linarith [Real.pi_gt_three]

lemma pe_13 : phasesEqual [rot4] [rot4, rot4, rot4] = false := by
  unfold phasesEqual
  rw [totals_rot1, totals_rot3]
  rw [if_neg]
  intro hcon
  have h2 := hcon.2.1
  rw [show Real.pi / 4 - 3 * Real.pi / 4 = -(Real.pi / 2) by ring, abs_neg,
    abs_of_pos (by positivity)] at h2
  norm_num at h2
  linarith [Real.pi_gt_three]

lemma pe_23 : phasesEqual [rot4, rot4] [rot4, rot4, rot4] = false := by
  unfold phasesEqual
  rw [totals_rot2, totals_rot3]
  rw [if_neg]
  intro hcon
  have h2 := hcon.2.1
  rw [show Real.pi / 2 - 3 * Real.pi / 4 = -(Real.pi / 4) by ring, abs_neg,
    abs_of_pos (by positivity)] at h2
  norm_num at h2
  linarith [Real.pi_gt_three]

/-- Merged branch of the four single-control combinations. -/
def m1 : Branch := ⟨STATE_ZERO, ⟨0, 0, 1, 0, 0⟩, 12 / 256, [rot4]⟩

/-- Merged branch of the five enumerated double-control combinations. -/
def m2 : Branch := ⟨STATE_ZERO, ⟨0, 0, 1, 0, 0⟩, 45 / 256, [rot4, rot4]⟩

/-- Merged branch of the single enumerated triple-control combination. -/
def m3 : Branch := ⟨STATE_ZERO, ⟨0, 0, 1, 0, 0⟩, 27 / 256, [rot4, rot4, rot4]⟩

lemma merged_cex : mergedOf [q1, q1, q2, q1, q2, q2, q3, q1, q2, q2] = [m1, m2, m3] := by
  unfold mergedOf
  simp only [List.foldl, addBranch, q1, q2, q3, coordsEqual_refl, pe_11, pe_22, pe_12,
    pe_13, pe_23, Bool.true_and, Bool.and_false, Bool.and_true, Bool.false_and,
    if_true, if_false]
  norm_num [m1, m2, m3, Branch.mk.injEq]

lemma sort_cex : sortBranches [m1, m2, m3] = [m2, m3, m1] := by
  unfold sortBranches
  norm_num [List.insertionSort, List.orderedInsert, m1, m2, m3]

lemma rawOf_cex : rawOf cexCircuit [] "zero" 1 0 = [q1, q1, q2, q1, q2, q2, q3, q1, q2, q2] := by
  unfold rawOf
  rw [eff_cex_w0, uc_cex, cp_cex]
  rw [show ((2 : ℕ) ^ List.length [(1 : ℕ), 2, 3, 4]) = 16 from rfl]
  exact raw_cex

lemma cb_cex : controlledBranches cexCircuit [] "zero" 1 0 = [m2, m3, m1] := by
  rw [controlledBranches_eq, rawOf_cex, merged_cex, sort_cex]
  simp

lemma wb_cex_w0 : wireBranches cexCircuit [] "zero" 1 0 = [m2, m3, m1] := by
  unfold wireBranches
  simp only [eff_cex_w0]
  rw [if_pos (by simp +decide [cexGates, List.find?, cpGate])]
  exact cb_cex

/-- C2, counterexample to the literal retention claim: on the
counterexample circuit the all-asserted control assignment (combination
15) has strictly larger probability than every other assignment and would
yield the branch q4 with probability 81/256, yet the enumeration loop
accepts assignments 1 - 10 first and stops at ten branches, so the wire
emits only the three merged branches and q4 (in particular any branch of
probability 81/256, or with four rotations) is not among them. -/
theorem C2_counterexample :
    (    assignProb cexProbs 0 < assignProb cexProbs 15 ∧
    assignProb cexProbs 1 < assignProb cexProbs 15 ∧
    assignProb cexProbs 2 < assignProb cexProbs 15 ∧
    assignProb cexProbs 3 < assignProb cexProbs 15 ∧
    assignProb cexProbs 4 < assignProb cexProbs 15 ∧
    assignProb cexProbs 5 < assignProb cexProbs 15 ∧
    assignProb cexProbs 6 < assignProb cexProbs 15 ∧
    assignProb cexProbs 7 < assignProb cexProbs 15 ∧
    assignProb cexProbs 8 < assignProb cexProbs 15 ∧
    assignProb cexProbs 9 < assignProb cexProbs 15 ∧
    assignProb cexProbs 10 < assignProb cexProbs 15 ∧
    assignProb cexProbs 11 < assignProb cexProbs 15 ∧
    assignProb cexProbs 12 < assignProb cexProbs 15 ∧
    assignProb cexProbs 13 < assignProb cexProbs 15 ∧
    assignProb cexProbs 14 < assignProb cexProbs 15) ∧
    mkCex 15 = some q4 ∧
    controlProbsOf cexCircuit [] "zero" 1 (effectiveGates cexCircuit [] "zero" 1 0) =
      cexProbs ∧
    wireBranches cexCircuit [] "zero" 1 0 = [m2, m3, m1] ∧
    q4 ∉ wireBranches cexCircuit [] "zero" 1 0 := by
  refine ⟨⟨(by rw [ap_cex_0, ap_cex_15]; norm_num),
    (by rw [ap_cex_1, ap_cex_15]; norm_num),
    (by rw [ap_cex_2, ap_cex_15]; norm_num),
    (by rw [ap_cex_3, ap_cex_15]; norm_num),
    (by rw [ap_cex_4, ap_cex_15]; norm_num),
    (by rw [ap_cex_5, ap_cex_15]; norm_num),
    (by rw [ap_cex_6, ap_cex_15]; norm_num),
    (by rw [ap_cex_7, ap_cex_15]; norm_num),
    (by rw [ap_cex_8, ap_cex_15]; norm_num),
    (by rw [ap_cex_9, ap_cex_15]; norm_num),
    (by rw [ap_cex_10, ap_cex_15]; norm_num),
    (by rw [ap_cex_11, ap_cex_15]; norm_num),
    (by rw [ap_cex_12, ap_cex_15]; norm_num),
    (by rw [ap_cex_13, ap_cex_15]; norm_num),
    (by rw [ap_cex_14, ap_cex_15]; norm_num)⟩, mk_cex_15, ?_, wb_cex_w0, ?_⟩
  · rw [eff_cex_w0]
    exact cp_cex
  · rw [wb_cex_w0]
    intro hmem
    rw [List.mem_cons, List.mem_cons, List.mem_singleton] at hmem
    rcases hmem with h | h | h
    · have h2 := congrArg Branch.probability h
      rw [show q4.probability = 81 / 256 from rfl, show m2.probability = 45 / 256 from rfl] at h2
      norm_num at h2
    · have h2 := congrArg Branch.probability h
      rw [show q4.probability = 81 / 256 from rfl, show m3.probability = 27 / 256 from rfl] at h2
      norm_num at h2
    · have h2 := congrArg Branch.probability h
      rw [show q4.probability = 81 / 256 from rfl, show m1.probability = 12 / 256 from rfl] at h2
      norm_num at h2

end QViz
